import Mathlib

/-!
ScoreManager and ScoreTracker (artm/core/score_manager.cc)

A shallow embedding of the score registry of BigARTM.  The collaborators whose
declarations live in other headers (the protobuf `Score` message, the score
calculator interface, the instance schema, the `ScoreData` message) are taken
as parameters: a type `Score` with the two protobuf operations the registry
calls on it, and records of the virtual methods the registry invokes.
-/

namespace artm
namespace core

/-- The key type of the registry (`typedef std::string ScoreName`). -/
abbrev ScoreName := String

/-- The integer value of the `ScoreData_Type` enumeration. -/
abbrev ScoreData_Type := Nat

/-- The two protobuf `Message` operations that the registry calls on a score object.
`ParseFromString m blob` is `none` when the C++ call returns `false`, and otherwise the
content of the message after the call; `SerializeAsString` gives the wire bytes. -/
class Message (M : Type) where
  ParseFromString : M → String → Option M
  SerializeAsString : M → String

/-- The virtual methods of a score calculator that the registry invokes.
`AppendScore score target` is the content of `*target` after the C++ call
`AppendScore(score, target)`. -/
structure ScoreCalculatorInterface (Score : Type) where
  CreateScore : Score
  AppendScore : Score → Score → Score
  is_cumulative : Bool
  score_type : ScoreData_Type

/-- The schema handle: `score_calculator name` is `none` for a null pointer. -/
structure InstanceSchema (Score : Type) where
  score_calculator : ScoreName → Option (ScoreCalculatorInterface Score)

/-- The protobuf message `ScoreData`, with its three optional fields. -/
structure ScoreData where
  name : Option String
  type : Option ScoreData_Type
  data : Option String
  deriving DecidableEq, Repr

namespace ScoreData

/-- A freshly constructed `ScoreData`: no field is set. -/
def default : ScoreData := { name := none, type := none, data := none }

def set_data (d : ScoreData) (v : String) : ScoreData := { d with data := some v }

def set_type (d : ScoreData) (t : ScoreData_Type) : ScoreData := { d with type := some t }

def set_name (d : ScoreData) (n : String) : ScoreData := { d with name := some n }

/-- The getter `name()`: the empty string when the field is not set. -/
def getName (d : ScoreData) : String := d.name.getD ""

end ScoreData

/-- The exception raised by the registry. -/
inductive Error where
  | InvalidOperation (msg : String)
  deriving DecidableEq, Repr

/-- The container `score_map_`: an associative container with unique keys, kept as a
list of entries in increasing key order. -/
abbrev ScoreMap (Score : Type) := List (ScoreName × Score)

namespace ScoreMap

variable {Score : Type}

/-- The call `score_map_.find(k)`: the mapped value, `none` for `end()`. -/
def find : ScoreMap Score → ScoreName → Option Score
  | [], _ => none
  | (k1, v1) :: rest, k => if k1 = k then some v1 else find rest k

/-- The call `score_map_.insert(pair(k, v))`: a key already present keeps its value.
Keys are compared character by character, as `std::string` compares. -/
def insert : ScoreMap Score → ScoreName → Score → ScoreMap Score
  | [], k, v => [(k, v)]
  | (k1, v1) :: rest, k, v =>
    if k.data < k1.data then (k, v) :: (k1, v1) :: rest
    else if k1 = k then (k1, v1) :: rest
    else (k1, v1) :: insert rest k v

/-- The assignment `iter->second = v` through the iterator found for `k`. -/
def assign : ScoreMap Score → ScoreName → Score → ScoreMap Score
  | [], _, _ => []
  | (k1, v1) :: rest, k, v =>
    if k1 = k then (k1, v) :: rest else (k1, v1) :: assign rest k v

/-- The keys in iteration order (`elem.first` for each element). -/
def names (m : ScoreMap Score) : List ScoreName := m.map Prod.fst

end ScoreMap

/-- The guarded state of a `ScoreManager`. -/
structure ScoreManager (Score : Type) where
  score_map_ : ScoreMap Score

namespace ScoreManager

variable {Score : Type} [Message Score]

/-- A freshly constructed manager: the map is empty. -/
def empty : ScoreManager Score := { score_map_ := [] }

/-- The body of `ScoreManager::Append`: the manager after the call, and the lines
written to the error log. -/
def Append (self : ScoreManager Score) (schema : InstanceSchema Score)
    (score_name : ScoreName) (score_blob : String) : ScoreManager Score × List String :=
  match schema.score_calculator score_name with
  | none => (self, ["Unable to find score calculator: " ++ score_name])
  | some score_calculator =>
    match Message.ParseFromString score_calculator.CreateScore score_blob with
    | none =>
      (self, ["Merger was unable to parse score blob. The scores might be inacurate."])
    | some score_inc =>
      match ScoreMap.find self.score_map_ score_name with
      | some existing =>
        ({ score_map_ := ScoreMap.assign self.score_map_ score_name
            (score_calculator.AppendScore existing score_inc) }, [])
      | none =>
        ({ score_map_ := ScoreMap.insert self.score_map_ score_name score_inc }, [])

/-- The body of `ScoreManager::Clear`. -/
def Clear (_self : ScoreManager Score) : ScoreManager Score := { score_map_ := [] }

/-- The body of `ScoreManager::RequestScore`: the outcome (the boolean returned, or the
exception thrown) and the content of `*score_data` after the call. -/
def RequestScore (self : ScoreManager Score) (schema : InstanceSchema Score)
    (score_name : ScoreName) (score_data : ScoreData) : Except Error Bool × ScoreData :=
  match schema.score_calculator score_name with
  | none =>
    (Except.error (Error.InvalidOperation
      ("Attempt to request non-existing score: " ++ score_name)), score_data)
  | some score_calculator =>
    if !score_calculator.is_cumulative then (Except.ok false, score_data)
    else
      let d1 :=
        match ScoreMap.find self.score_map_ score_name with
        | some v => score_data.set_data (Message.SerializeAsString v)
        | none => score_data.set_data (Message.SerializeAsString score_calculator.CreateScore)
      let d2 := d1.set_type score_calculator.score_type
      (Except.ok true, d2.set_name score_name)

/-- The second loop of `RequestAllScores`, over the copied names: the outcome and the
content of the caller's repeated field when the loop ends or throws. -/
def requestLoop (self : ScoreManager Score) (schema : InstanceSchema Score) :
    List ScoreName → List ScoreData → Except Error Unit × List ScoreData
  | [], out => (Except.ok (), out)
  | score_name :: rest, out =>
    match RequestScore self schema score_name ScoreData.default with
    | (Except.error e, _) => (Except.error e, out)
    | (Except.ok true, requested_score_data) =>
      requestLoop self schema rest (out ++ [requested_score_data])
    | (Except.ok false, _) => requestLoop self schema rest out

/-- The body of `ScoreManager::RequestAllScores`; `score_data` is `none` for a null
pointer. -/
def RequestAllScores (self : ScoreManager Score) (schema : InstanceSchema Score)
    (score_data : Option (List ScoreData)) : Except Error Unit × Option (List ScoreData) :=
  match score_data with
  | none => (Except.ok (), none)
  | some out =>
    let score_names := ScoreMap.names self.score_map_
    let r := requestLoop self schema score_names out
    (r.1, some r.2)

/-- Sequential calls of `Append` for one name, in list order. -/
def appendAll (self : ScoreManager Score) (schema : InstanceSchema Score)
    (score_name : ScoreName) (blobs : List String) : ScoreManager Score :=
  blobs.foldl (fun s b => (Append s schema score_name b).1) self

/-- Whether the schema resolves the name to a cumulative calculator. -/
def isCumulative (schema : InstanceSchema Score) (score_name : ScoreName) : Bool :=
  match schema.score_calculator score_name with
  | some score_calculator => score_calculator.is_cumulative
  | none => false

/-- What `RequestScore` writes into a fresh `ScoreData` for the name. -/
def reported (self : ScoreManager Score) (schema : InstanceSchema Score)
    (score_name : ScoreName) : ScoreData :=
  (RequestScore self schema score_name ScoreData.default).2

/-- `RequestAllScores`, called with an empty output, returns without an exception one
`ScoreData` for each name of `expected` and no other, each carrying the serialization of
the value that the map holds for its name. -/
def ReportsExactly (self : ScoreManager Score) (schema : InstanceSchema Score)
    (expected : List ScoreName) : Prop :=
  ∃ out : List ScoreData,
    RequestAllScores self schema (some []) = (Except.ok (), some out) ∧
    out.map ScoreData.name = expected.map some ∧
    ∀ d ∈ out, ∃ (n : ScoreName) (v : Score),
      d.name = some n ∧ ScoreMap.find self.score_map_ n = some v ∧
      d.data = some (Message.SerializeAsString v)

end ScoreManager

/-! ## Concurrent callers of `Append`

Each caller runs its calls of `ScoreManager::Append` one after the other; the callers
interleave at the granularity of the accesses to the shared state: taking `lock_`
(line 34), `find` (line 35), the read through the iterator for `AppendScore` (line 37),
the assignment (line 38) or the `insert` (line 40), and the release of `lock_` when the
guard is destroyed (line 42).  Lines 19 to 29 touch no shared state of the manager. -/

/-- The arguments of one call of `ScoreManager::Append`. -/
structure AppendCall (Score : Type) where
  schema : InstanceSchema Score
  score_name : ScoreName
  score_blob : String

/-- Where a caller stands inside `ScoreManager::Append`, with its local variables. -/
inductive ProgramPoint (Score : Type) where
  | outside
  | line34 (call : AppendCall Score) (score_calculator : ScoreCalculatorInterface Score)
      (score_inc : Score)
  | line35 (call : AppendCall Score) (score_calculator : ScoreCalculatorInterface Score)
      (score_inc : Score)
  | line36 (call : AppendCall Score) (score_calculator : ScoreCalculatorInterface Score)
      (score_inc : Score) (iterNotEnd : Bool)
  | line38 (call : AppendCall Score) (score_inc : Score)
  | line42

/-- One caller: its program point and the calls it has still to make, in order. -/
structure Caller (Score : Type) where
  pc : ProgramPoint Score
  todo : List (AppendCall Score)

/-- The manager shared by the callers: the map, the holder of `lock_` (if any), the
callers, and the error log. -/
structure SharedManager (Score : Type) where
  score_map_ : ScoreMap Score
  lock_ : Option Nat
  callers : List (Caller Score)
  log_ : List String

/-- The orders `l` that interleave the queues `qs`: every element of every queue occurs
once, and the elements of one queue occur in the order of the queue. -/
inductive Interleaving {α : Type} : List (List α) → List α → Prop where
  | done (qs : List (List α)) : (∀ q ∈ qs, q = []) → Interleaving qs []
  | next (qs : List (List α)) (i : Nat) (a : α) (q l : List α) :
      qs[i]? = some (a :: q) → Interleaving (qs.set i q) l → Interleaving qs (a :: l)

namespace Caller

variable {Score : Type}

/-- Whether the caller has returned from its last call. -/
def finished (c : Caller Score) : Bool :=
  match c.pc, c.todo with
  | .outside, [] => true
  | _, _ => false

/-- The calls of a caller that have not yet taken effect on the map: the call it is in,
until its store at line 38 or 40, and the calls it has still to make. -/
def pending (c : Caller Score) : List (AppendCall Score) :=
  match c.pc with
  | .outside => c.todo
  | .line34 call _ _ => call :: c.todo
  | .line35 call _ _ => call :: c.todo
  | .line36 call _ _ _ => call :: c.todo
  | .line38 call _ => call :: c.todo
  | .line42 => c.todo

/-- An upper bound on the number of steps a caller has still to make. -/
def weight (c : Caller Score) : Nat :=
  6 * c.todo.length +
    match c.pc with
    | .outside => 0
    | .line34 _ _ _ => 5
    | .line35 _ _ _ => 4
    | .line36 _ _ _ _ => 3
    | .line38 _ _ => 2
    | .line42 => 1

end Caller

namespace SharedManager

variable {Score : Type} [Message Score]

/-- Caller `t` gets the program point `pc` and the remaining calls `todo`. -/
def setCaller (s : SharedManager Score) (t : Nat) (pc : ProgramPoint Score)
    (todo : List (AppendCall Score)) : SharedManager Score :=
  { s with callers := s.callers.set t { pc := pc, todo := todo } }

/-- One step of caller `t`.  A caller that waits for the lock, has nothing left to do or
does not exist leaves the state as it is. -/
def step (s : SharedManager Score) (t : Nat) : SharedManager Score :=
  match s.callers[t]? with
  | none => s
  | some caller =>
    match caller.pc with
    | .outside =>
      match caller.todo with
      | [] => s
      | call :: rest =>
        match call.schema.score_calculator call.score_name with
        | none =>
          { setCaller s t .outside rest with
            log_ := s.log_ ++ ["Unable to find score calculator: " ++ call.score_name] }
        | some score_calculator =>
          match Message.ParseFromString score_calculator.CreateScore call.score_blob with
          | none =>
            { setCaller s t .outside rest with
              log_ := s.log_ ++
                ["Merger was unable to parse score blob. The scores might be inacurate."] }
          | some score_inc => setCaller s t (.line34 call score_calculator score_inc) rest
    | .line34 call score_calculator score_inc =>
      match s.lock_ with
      | some _ => s
      | none =>
        { setCaller s t (.line35 call score_calculator score_inc) caller.todo with
          lock_ := some t }
    | .line35 call score_calculator score_inc =>
      setCaller s t
        (.line36 call score_calculator score_inc
          (ScoreMap.find s.score_map_ call.score_name).isSome) caller.todo
    | .line36 call score_calculator score_inc iterNotEnd =>
      if iterNotEnd then
        match ScoreMap.find s.score_map_ call.score_name with
        | some existing =>
          setCaller s t (.line38 call (score_calculator.AppendScore existing score_inc))
            caller.todo
        | none => s
      else
        { setCaller s t .line42 caller.todo with
          score_map_ := ScoreMap.insert s.score_map_ call.score_name score_inc }
    | .line38 call score_inc =>
      { setCaller s t .line42 caller.todo with
        score_map_ := ScoreMap.assign s.score_map_ call.score_name score_inc }
    | .line42 => { setCaller s t .outside caller.todo with lock_ := none }

/-- The state reached when the callers named by `schedule` step in that order. -/
def run (s : SharedManager Score) (schedule : List Nat) : SharedManager Score :=
  schedule.foldl step s

/-- A fresh manager with one caller per queue, none of which has started. -/
def init (queues : List (List (AppendCall Score))) : SharedManager Score :=
  { score_map_ := [], lock_ := none,
    callers := queues.map (fun q => { pc := .outside, todo := q }), log_ := [] }

/-- Whether every caller has returned from its last call. -/
def finished (s : SharedManager Score) : Bool := s.callers.all Caller.finished

/-- The sequential effect of one call on a map. -/
def applyCall (m : ScoreMap Score) (call : AppendCall Score) : ScoreMap Score :=
  (ScoreManager.Append { score_map_ := m } call.schema call.score_name
    call.score_blob).1.score_map_

/-- The calls `Append(schema, score_name, b)` for the blobs `b` of each queue. -/
def callsOf (schema : InstanceSchema Score) (score_name : ScoreName)
    (queues : List (List String)) : List (List (AppendCall Score)) :=
  queues.map (fun q => q.map (fun b =>
    { schema := schema, score_name := score_name, score_blob := b }))

/-- The pending calls of all callers. -/
def pendings (s : SharedManager Score) : List (List (AppendCall Score)) :=
  s.callers.map Caller.pending

/-- The local variables `score_calculator` and `score_inc` are those that lines 19 to 29
compute for the call. -/
def Parsed (call : AppendCall Score) (cal : ScoreCalculatorInterface Score)
    (inc : Score) : Prop :=
  call.schema.score_calculator call.score_name = some cal ∧
    Message.ParseFromString cal.CreateScore call.score_blob = some inc

/-- What holds of caller `t` at its program point, given the map and the lock holder:
it holds the lock exactly from line 35 to line 42, and there its local variables agree
with the map. -/
def localInv (m : ScoreMap Score) (l : Option Nat) (t : Nat) (c : Caller Score) : Prop :=
  match c.pc with
  | .outside => l ≠ some t
  | .line34 call cal inc => l ≠ some t ∧ Parsed call cal inc
  | .line35 call cal inc => l = some t ∧ Parsed call cal inc
  | .line36 call cal inc b =>
    l = some t ∧ Parsed call cal inc ∧ b = (ScoreMap.find m call.score_name).isSome
  | .line38 call v =>
    l = some t ∧ ∃ cal inc existing, Parsed call cal inc ∧
      ScoreMap.find m call.score_name = some existing ∧ v = cal.AppendScore existing inc
  | .line42 => l = some t

/-- The invariant of the interleaved executions. -/
def Inv (s : SharedManager Score) : Prop :=
  (∀ t c, s.callers[t]? = some c → localInv s.score_map_ s.lock_ t c) ∧
    ∀ t, s.lock_ = some t → t < s.callers.length

/-- An upper bound on the number of steps all callers have still to make. -/
def weight (s : SharedManager Score) : Nat := (s.callers.map Caller.weight).sum

/-- The value that sequential merging of the parsed increments leaves for the name:
nothing for no increment, otherwise the left fold of `AppendScore`. -/
def foldMerge (cal : ScoreCalculatorInterface Score) : List Score → Option Score
  | [] => none
  | p :: rest => some (rest.foldl cal.AppendScore p)

end SharedManager

/-! ## Sequences of method calls on a `ScoreManager` -/

namespace ScoreManager

variable {Score : Type} [Message Score]

/-- A call of one of the four methods of `ScoreManager`, with its arguments. -/
inductive Method (Score : Type) where
  | Append (schema : InstanceSchema Score) (score_name : ScoreName) (score_blob : String)
  | Clear
  | RequestScore (schema : InstanceSchema Score) (score_name : ScoreName)
      (score_data : ScoreData)
  | RequestAllScores (schema : InstanceSchema Score) (score_data : Option (List ScoreData))

/-- The manager after the call.  `RequestScore` and `RequestAllScores` are `const` and
only read `score_map_` (`find` at line 62, the iteration at line 83). -/
def after (self : ScoreManager Score) : Method Score → ScoreManager Score
  | .Append schema score_name score_blob => (Append self schema score_name score_blob).1
  | .Clear => Clear self
  | .RequestScore _ _ _ => self
  | .RequestAllScores _ _ => self

/-- The manager after the calls of the list, made in order. -/
def afterAll (self : ScoreManager Score) (calls : List (Method Score)) : ScoreManager Score :=
  calls.foldl after self

/-- What `RequestScore` contributes to the output of `RequestAllScores` for one name: the
`ScoreData` it fills in when it returns `true`, nothing otherwise. -/
def requested (self : ScoreManager Score) (schema : InstanceSchema Score)
    (score_name : ScoreName) : Option ScoreData :=
  match RequestScore self schema score_name ScoreData.default with
  | (Except.ok true, requested_score_data) => some requested_score_data
  | _ => none

end ScoreManager

/-! ## ScoreTracker -/

/-- The message `GetScoreArrayArgs`, of which the tracker reads the field `score_name`. -/
structure GetScoreArrayArgs where
  score_name : Option String

/-- The getter `score_name()`: the empty string when the field is not set. -/
def GetScoreArrayArgs.getScoreName (a : GetScoreArrayArgs) : String := a.score_name.getD ""

/-- The message `ScoreDataArray`: its repeated field `score`. -/
structure ScoreDataArray where
  score : List ScoreData

/-- The guarded state of a `ScoreTracker`: the records of `array_`, in order. -/
structure ScoreTracker where
  array_ : List ScoreData

namespace ScoreTracker

/-- A freshly constructed tracker: the sequence is empty. -/
def empty : ScoreTracker := { array_ := [] }

/-- The body of `ScoreTracker::Clear`. -/
def Clear (_self : ScoreTracker) : ScoreTracker := { array_ := [] }

/-- The body of `ScoreTracker::Add`: the tracker after the call and the handle returned,
which designates the record by its position in `array_`. -/
def Add (self : ScoreTracker) : ScoreTracker × Nat :=
  ({ array_ := self.array_ ++ [ScoreData.default] }, self.array_.length)

/-- The body of `ScoreTracker::RequestScoreArray`: the tracker after the call and the
content of `*score_data_array` after the call. -/
def RequestScoreArray (self : ScoreTracker) (args : GetScoreArrayArgs)
    (score_data_array : ScoreDataArray) : ScoreTracker × ScoreDataArray :=
  (self,
    { score := self.array_.foldl
        (fun out elem => if elem.getName = args.getScoreName then out ++ [elem] else out)
        score_data_array.score })

/-- The caller changes, through the handle that `Add` returned, the record it designates. -/
def write (self : ScoreTracker) (handle : Nat) (f : ScoreData → ScoreData) : ScoreTracker :=
  match self.array_[handle]? with
  | some record => { array_ := self.array_.set handle (f record) }
  | none => self

/-- One checkpoint: `Add`, then the caller sets the name, the type and the data of the
record through the handle. -/
def record (self : ScoreTracker) (content : String × ScoreData_Type × String) :
    ScoreTracker :=
  write (Add self).1 (Add self).2
    (fun d => ((d.set_name content.1).set_type content.2.1).set_data content.2.2)

/-- The checkpoints of the list, recorded in order. -/
def recordAll (self : ScoreTracker) (contents : List (String × ScoreData_Type × String)) :
    ScoreTracker :=
  contents.foldl record self

/-- The populated record of a checkpoint. -/
def populated (content : String × ScoreData_Type × String) : ScoreData :=
  { name := some content.1, type := some content.2.1, data := some content.2.2 }

/-- A call of one of the three methods of `ScoreTracker`, with its arguments. -/
inductive Method where
  | Clear
  | Add
  | RequestScoreArray (args : GetScoreArrayArgs) (score_data_array : ScoreDataArray)

/-- The tracker after the call. -/
def after (self : ScoreTracker) : Method → ScoreTracker
  | .Clear => Clear self
  | .Add => (Add self).1
  | .RequestScoreArray args score_data_array =>
    (RequestScoreArray self args score_data_array).1

end ScoreTracker

/-! ## The read methods, statement by statement

The bodies of the three read methods with the members of the object threaded through
every statement, the mutex included: the `lock_guard` takes `lock_` where it is declared
and releases it at the end of its scope. -/

/-- The members of a `ScoreManager`: the map and whether `lock_` is held. -/
structure ManagerMembers (Score : Type) where
  score_map_ : ScoreMap Score
  lock_ : Bool

namespace ManagerMembers

variable {Score : Type} [Message Score]

/-- The constructor of `boost::lock_guard` on `lock_`. -/
def lock (self : ManagerMembers Score) : ManagerMembers Score := { self with lock_ := true }

/-- The destructor of `boost::lock_guard` on `lock_`. -/
def unlock (self : ManagerMembers Score) : ManagerMembers Score :=
  { self with lock_ := false }

/-- The body of `ScoreManager::RequestScore` (lines 49 to 73): the members after the call,
the outcome, and the content of `*score_data` after the call. -/
def RequestScore (self : ManagerMembers Score) (schema : InstanceSchema Score)
    (score_name : ScoreName) (score_data : ScoreData) :
    ManagerMembers Score × Except Error Bool × ScoreData :=
  match schema.score_calculator score_name with
  | none =>
    (self, Except.error (Error.InvalidOperation
      ("Attempt to request non-existing score: " ++ score_name)), score_data)
  | some score_calculator =>
    if !score_calculator.is_cumulative then (self, Except.ok false, score_data)
    else
      let guarded := lock self
      let d1 :=
        match ScoreMap.find guarded.score_map_ score_name with
        | some v => score_data.set_data (Message.SerializeAsString v)
        | none => score_data.set_data (Message.SerializeAsString score_calculator.CreateScore)
      let released := unlock guarded
      let d2 := d1.set_type score_calculator.score_type
      (released, Except.ok true, d2.set_name score_name)

/-- The loop at lines 87 to 91 over the copied names. -/
def requestLoop (schema : InstanceSchema Score) :
    List ScoreName → ManagerMembers Score → List ScoreData →
      ManagerMembers Score × Except Error Unit × List ScoreData
  | [], self, out => (self, Except.ok (), out)
  | score_name :: rest, self, out =>
    match RequestScore self schema score_name ScoreData.default with
    | (self1, Except.error e, _) => (self1, Except.error e, out)
    | (self1, Except.ok true, requested_score_data) =>
      requestLoop schema rest self1 (out ++ [requested_score_data])
    | (self1, Except.ok false, _) => requestLoop schema rest self1 out

/-- The body of `ScoreManager::RequestAllScores` (lines 75 to 92). -/
def RequestAllScores (self : ManagerMembers Score) (schema : InstanceSchema Score)
    (score_data : Option (List ScoreData)) :
    ManagerMembers Score × Except Error Unit × Option (List ScoreData) :=
  match score_data with
  | none => (self, Except.ok (), none)
  | some out =>
    let guarded := lock self
    let score_names := guarded.score_map_.map Prod.fst
    let released := unlock guarded
    let r := requestLoop schema score_names released out
    (r.1, r.2.1, some r.2.2)

end ManagerMembers

/-- The members of a `ScoreTracker`: the records and whether `lock_` is held. -/
structure TrackerMembers where
  array_ : List ScoreData
  lock_ : Bool

namespace TrackerMembers

/-- The body of `ScoreTracker::RequestScoreArray` (lines 108 to 115): the members after
the call and the content of `*score_data_array` after the call. -/
def RequestScoreArray (self : TrackerMembers) (args : GetScoreArrayArgs)
    (score_data_array : ScoreDataArray) : TrackerMembers × ScoreDataArray :=
  let guarded : TrackerMembers := { self with lock_ := true }
  let out := guarded.array_.foldl
    (fun out elem => if elem.getName = args.getScoreName then out ++ [elem] else out)
    score_data_array.score
  let released : TrackerMembers := { guarded with lock_ := false }
  (released, { score := out })

end TrackerMembers

/-! ## A concrete calculator used to instantiate the theorems -/

/-- A counter score: the value `n` travels on the wire as `n` plus signs, and any other
character makes the blob unparseable. -/
instance counterMessage : Message Nat where
  ParseFromString _ blob :=
    if blob.data.all (fun c => decide (c = '+')) then some blob.data.length else none
  SerializeAsString n := String.mk (List.replicate n '+')

/-- A cumulative calculator over counters: the default is zero, the merge is the sum. -/
def sumCalculator : ScoreCalculatorInterface Nat :=
  { CreateScore := 0, AppendScore := fun score target => target + score,
    is_cumulative := true, score_type := 0 }

/-- A calculator that keeps the older value, to tell the two arguments of the merge apart. -/
def keepFirstCalculator : ScoreCalculatorInterface Nat :=
  { CreateScore := 0, AppendScore := fun score _ => score,
    is_cumulative := true, score_type := 1 }

/-- A non-cumulative calculator over counters. -/
def snapshotCalculator : ScoreCalculatorInterface Nat :=
  { CreateScore := 0, AppendScore := fun score target => target + score,
    is_cumulative := false, score_type := 2 }

/-- A schema that knows three score names. -/
def demoSchema : InstanceSchema Nat :=
  { score_calculator := fun n =>
      if n = "perplexity" then some sumCalculator
      else if n = "first" then some keepFirstCalculator
      else if n = "snapshot" then some snapshotCalculator
      else none }

/-- A schema that knows no score name. -/
def emptySchema : InstanceSchema Nat := { score_calculator := fun _ => none }

/-- An integer score: `n` travels as `n` plus signs, a negative `n` as a minus sign
followed by the plus signs of `-n`; any other blob is unparseable. -/
instance integerMessage : Message Int where
  ParseFromString _ blob :=
    match blob.data with
    | '-' :: rest =>
      if rest.all (fun c => decide (c = '+')) && !rest.isEmpty then
        some (Int.negSucc (rest.length - 1))
      else none
    | cs => if cs.all (fun c => decide (c = '+')) then some (Int.ofNat cs.length) else none
  SerializeAsString n :=
    match n with
    | Int.ofNat k => String.mk (List.replicate k '+')
    | Int.negSucc k => String.mk ('-' :: List.replicate (k + 1) '+')

/-- A cumulative calculator over integers: the default is zero, the merge is the sum. -/
def integerSumCalculator : ScoreCalculatorInterface Int :=
  { CreateScore := 0, AppendScore := fun score target => target + score,
    is_cumulative := true, score_type := 0 }

/-- A schema over integer scores that knows the name `perplexity`. -/
def integerSchema : InstanceSchema Int :=
  { score_calculator := fun n => if n = "perplexity" then some integerSumCalculator else none }

/-! ## Facts about the container -/

namespace ScoreMap

variable {Score : Type}

theorem find_insert_self (m : ScoreMap Score) (k : ScoreName) (v : Score)
    (h : find m k = none) : find (insert m k v) k = some v := by
  induction m with
  | nil => simp [insert, find]
  | cons e rest ih =>
    obtain ⟨k1, v1⟩ := e
    by_cases hk : k1 = k
    · simp [find, hk] at h
    · have hrest : find rest k = none := by simpa [find, hk] using h
      by_cases hlt : k.data < k1.data
      · simp [insert, hlt, find]
      · simp [insert, hlt, hk, find, ih hrest]

theorem find_insert_other (m : ScoreMap Score) (k j : ScoreName) (v : Score)
    (hne : j ≠ k) : find (insert m k v) j = find m j := by
  induction m with
  | nil => simp [insert, find, Ne.symm hne]
  | cons e rest ih =>
    obtain ⟨k1, v1⟩ := e
    by_cases hlt : k.data < k1.data
    · simp [insert, hlt, find, Ne.symm hne]
    · by_cases hk : k1 = k
      · simp [insert, hlt, hk]
      · by_cases hj : k1 = j
        · subst hj
          simp [insert, hlt, hk, find]
        · simp [insert, hlt, hk, find, hj, ih]

theorem find_assign_self (m : ScoreMap Score) (k : ScoreName) (v0 v : Score)
    (h : find m k = some v0) : find (assign m k v) k = some v := by
  induction m with
  | nil => simp [find] at h
  | cons e rest ih =>
    obtain ⟨k1, v1⟩ := e
    by_cases hk : k1 = k
    · simp [assign, hk, find]
    · have hrest : find rest k = some v0 := by simpa [find, hk] using h
      simp [assign, hk, find, ih hrest]

theorem find_assign_other (m : ScoreMap Score) (k j : ScoreName) (v : Score)
    (hne : j ≠ k) : find (assign m k v) j = find m j := by
  induction m with
  | nil => simp [assign]
  | cons e rest ih =>
    obtain ⟨k1, v1⟩ := e
    by_cases hk : k1 = k
    · have hj : ¬ k = j := fun h => hne h.symm
      simp [assign, hk, find, hj]
    · by_cases hj : k1 = j
      · subst hj
        simp [assign, hk, find]
      · simp [assign, hk, find, hj, ih]

theorem names_assign (m : ScoreMap Score) (k : ScoreName) (v : Score) :
    names (assign m k v) = names m := by
  induction m with
  | nil => simp [assign]
  | cons e rest ih =>
    obtain ⟨k1, v1⟩ := e
    by_cases hk : k1 = k
    · simp [assign, hk, names]
    · have ih2 : List.map Prod.fst (assign rest k v) = List.map Prod.fst rest := ih
      simp [assign, hk, names, ih2]

theorem find_eq_none_iff (m : ScoreMap Score) (k : ScoreName) :
    find m k = none ↔ k ∉ names m := by
  induction m with
  | nil => simp [find, names]
  | cons e rest ih =>
    obtain ⟨k1, v1⟩ := e
    have ih2 : find rest k = none ↔ k ∉ List.map Prod.fst rest := ih
    by_cases hk : k1 = k
    · simp [find, names, hk]
    · have hk2 : ¬ k = k1 := fun h => hk h.symm
      simp [find, names, hk, hk2, ih2]

theorem mem_names_insert (m : ScoreMap Score) (k j : ScoreName) (v : Score)
    (h : j ∈ names (insert m k v)) : j = k ∨ j ∈ names m := by
  induction m with
  | nil => simpa [insert, names] using h
  | cons e rest ih =>
    obtain ⟨k1, v1⟩ := e
    by_cases hlt : k.data < k1.data
    · simp only [insert, hlt, if_true, names, List.map_cons, List.mem_cons] at h
      simpa [names] using h
    · by_cases hk : k1 = k
      · simp only [insert, hlt, hk, if_false, if_true] at h
        right
        simpa [hk] using h
      · simp only [insert, hlt, hk, if_false, names, List.map_cons, List.mem_cons] at h
        rcases h with h | h
        · right; simp [names, h]
        · rcases ih h with h2 | h2
          · left; exact h2
          · right
            simp only [names, List.map_cons, List.mem_cons]
            right; exact h2

theorem names_insert_nodup (m : ScoreMap Score) (k : ScoreName) (v : Score)
    (hnd : (names m).Nodup) (hf : find m k = none) : (names (insert m k v)).Nodup := by
  induction m with
  | nil => simp [insert, names]
  | cons e rest ih =>
    obtain ⟨k1, v1⟩ := e
    have hk : ¬ k1 = k := by
      intro hk
      simp [find, hk] at hf
    have hrest : find rest k = none := by simpa [find, hk] using hf
    have hnd2 : k1 ∉ names rest ∧ (names rest).Nodup := by
      simpa [names] using hnd
    by_cases hlt : k.data < k1.data
    · have hnot : k ∉ names ((k1, v1) :: rest) := (find_eq_none_iff _ _).mp hf
      simp only [insert, hlt, if_true]
      exact List.nodup_cons.mpr ⟨hnot, hnd⟩
    · simp only [insert, hlt, hk, if_false]
      refine List.nodup_cons.mpr ⟨?_, ih hnd2.2 hrest⟩
      intro hmem
      rcases mem_names_insert rest k k1 v hmem with h | h
      · exact hk h
      · exact hnd2.1 h

theorem length_insert (m : ScoreMap Score) (k : ScoreName) (v : Score)
    (hf : find m k = none) : (insert m k v).length = m.length + 1 := by
  induction m with
  | nil => simp [insert]
  | cons e rest ih =>
    obtain ⟨k1, v1⟩ := e
    have hk : ¬ k1 = k := by
      intro hk
      simp [find, hk] at hf
    have hrest : find rest k = none := by simpa [find, hk] using hf
    by_cases hlt : k.data < k1.data
    · simp [insert, hlt]
    · simp [insert, hlt, hk, ih hrest]

theorem length_assign (m : ScoreMap Score) (k : ScoreName) (v : Score) :
    (assign m k v).length = m.length := by
  induction m with
  | nil => simp [assign]
  | cons e rest ih =>
    obtain ⟨k1, v1⟩ := e
    by_cases hk : k1 = k
    · simp [assign, hk]
    · simp [assign, hk, ih]

end ScoreMap

/-! ## Facts about single calls -/

namespace ScoreManager

variable {Score : Type} [Message Score]

theorem Append_unresolved (self : ScoreManager Score) (schema : InstanceSchema Score)
    (score_name : ScoreName) (score_blob : String)
    (h : schema.score_calculator score_name = none) :
    Append self schema score_name score_blob =
      (self, ["Unable to find score calculator: " ++ score_name]) := by
  simp [Append, h]

theorem Append_unparsed (self : ScoreManager Score) (schema : InstanceSchema Score)
    (score_name : ScoreName) (score_blob : String) (cal : ScoreCalculatorInterface Score)
    (h : schema.score_calculator score_name = some cal)
    (hp : Message.ParseFromString cal.CreateScore score_blob = none) :
    Append self schema score_name score_blob =
      (self, ["Merger was unable to parse score blob. The scores might be inacurate."]) := by
  simp [Append, h, hp]

theorem Append_absent (self : ScoreManager Score) (schema : InstanceSchema Score)
    (score_name : ScoreName) (score_blob : String) (cal : ScoreCalculatorInterface Score)
    (inc : Score) (h : schema.score_calculator score_name = some cal)
    (hp : Message.ParseFromString cal.CreateScore score_blob = some inc)
    (hf : ScoreMap.find self.score_map_ score_name = none) :
    Append self schema score_name score_blob =
      ({ score_map_ := ScoreMap.insert self.score_map_ score_name inc }, []) := by
  simp [Append, h, hp, hf]

theorem Append_present (self : ScoreManager Score) (schema : InstanceSchema Score)
    (score_name : ScoreName) (score_blob : String) (cal : ScoreCalculatorInterface Score)
    (inc existing : Score) (h : schema.score_calculator score_name = some cal)
    (hp : Message.ParseFromString cal.CreateScore score_blob = some inc)
    (hf : ScoreMap.find self.score_map_ score_name = some existing) :
    Append self schema score_name score_blob =
      ({ score_map_ := ScoreMap.assign self.score_map_ score_name
          (cal.AppendScore existing inc) }, []) := by
  simp [Append, h, hp, hf]

/-- Appending parseable increments to a map that holds only `score_name` folds the merge
over them, the stored value being the first argument each time. -/
theorem appendAll_singleton (schema : InstanceSchema Score) (score_name : ScoreName)
    (cal : ScoreCalculatorInterface Score)
    (h : schema.score_calculator score_name = some cal) (bs : List String) :
    ∀ (ps : List Score) (v : Score),
      bs.map (Message.ParseFromString cal.CreateScore) = ps.map some →
      (appendAll { score_map_ := [(score_name, v)] } schema score_name bs).score_map_ =
        [(score_name, ps.foldl cal.AppendScore v)] := by
  induction bs with
  | nil =>
    intro ps v hps
    cases ps with
    | nil => simp [appendAll]
    | cons p ps => simp at hps
  | cons b bs ih =>
    intro ps v hps
    cases ps with
    | nil => simp at hps
    | cons p ps =>
      simp only [List.map_cons, List.cons.injEq] at hps
      have hstep : (Append { score_map_ := [(score_name, v)] } schema score_name b).1 =
          { score_map_ := [(score_name, cal.AppendScore v p)] } := by
        rw [Append_present _ schema score_name b cal p v h hps.1 (by simp [ScoreMap.find])]
        simp [ScoreMap.assign]
      have := ih ps (cal.AppendScore v p) hps.2
      simpa [appendAll, hstep] using this

/-- Sequential appends of parseable increments to an empty manager leave one entry, the
left fold of the merge. -/
theorem appendAll_empty_cons (schema : InstanceSchema Score) (score_name : ScoreName)
    (cal : ScoreCalculatorInterface Score)
    (h : schema.score_calculator score_name = some cal) (b1 : String) (bs : List String)
    (p1 : Score) (ps : List Score)
    (hp1 : Message.ParseFromString cal.CreateScore b1 = some p1)
    (hps : bs.map (Message.ParseFromString cal.CreateScore) = ps.map some) :
    (appendAll empty schema score_name (b1 :: bs)).score_map_ =
      [(score_name, ps.foldl cal.AppendScore p1)] := by
  have hfirst : (Append empty schema score_name b1).1 =
      ({ score_map_ := [(score_name, p1)] } : ScoreManager Score) := by
    rw [Append_absent _ schema score_name b1 cal p1 h hp1 (by simp [empty, ScoreMap.find])]
    simp [empty, ScoreMap.insert]
  have hmap := appendAll_singleton schema score_name cal h bs ps p1 hps
  simpa [appendAll, hfirst] using hmap

theorem RequestScore_cumulative_absent (self : ScoreManager Score)
    (schema : InstanceSchema Score) (score_name : ScoreName) (score_data : ScoreData)
    (cal : ScoreCalculatorInterface Score)
    (h : schema.score_calculator score_name = some cal)
    (hc : cal.is_cumulative = true)
    (hf : ScoreMap.find self.score_map_ score_name = none) :
    RequestScore self schema score_name score_data =
      (Except.ok true,
        { name := some score_name, type := some cal.score_type,
          data := some (Message.SerializeAsString cal.CreateScore) }) := by
  simp [RequestScore, h, hc, hf, ScoreData.set_data, ScoreData.set_type, ScoreData.set_name]

theorem RequestScore_cumulative_present (self : ScoreManager Score)
    (schema : InstanceSchema Score) (score_name : ScoreName) (score_data : ScoreData)
    (cal : ScoreCalculatorInterface Score) (v : Score)
    (h : schema.score_calculator score_name = some cal)
    (hc : cal.is_cumulative = true)
    (hf : ScoreMap.find self.score_map_ score_name = some v) :
    RequestScore self schema score_name score_data =
      (Except.ok true,
        { name := some score_name, type := some cal.score_type,
          data := some (Message.SerializeAsString v) }) := by
  simp [RequestScore, h, hc, hf, ScoreData.set_data, ScoreData.set_type, ScoreData.set_name]

theorem RequestScore_not_cumulative (self : ScoreManager Score)
    (schema : InstanceSchema Score) (score_name : ScoreName) (score_data : ScoreData)
    (cal : ScoreCalculatorInterface Score)
    (h : schema.score_calculator score_name = some cal)
    (hc : cal.is_cumulative = false) :
    RequestScore self schema score_name score_data = (Except.ok false, score_data) := by
  simp [RequestScore, h, hc]

/-- The loop of `RequestAllScores` over names that the schema resolves: no exception, and
the output grows by the reports of the cumulative names, in order. -/
theorem requestLoop_resolved (self : ScoreManager Score) (schema : InstanceSchema Score)
    (ns : List ScoreName) :
    ∀ out : List ScoreData, (∀ n ∈ ns, schema.score_calculator n ≠ none) →
      requestLoop self schema ns out =
        (Except.ok (), out ++ (ns.filter (isCumulative schema)).map (reported self schema)) := by
  induction ns with
  | nil => intro out _; simp [requestLoop]
  | cons n rest ih =>
    intro out hres
    have hrest : ∀ k ∈ rest, schema.score_calculator k ≠ none :=
      fun k hk => hres k (List.mem_cons_of_mem _ hk)
    cases h : schema.score_calculator n with
    | none => exact absurd h (hres n (List.mem_cons_self _ _))
    | some cal =>
      cases hc : cal.is_cumulative with
      | false =>
        have hcum : isCumulative schema n = false := by simp [isCumulative, h, hc]
        rw [requestLoop, RequestScore_not_cumulative self schema n _ cal h hc]
        simp only [List.filter_cons, hcum]
        exact ih out hrest
      | true =>
        have hcum : isCumulative schema n = true := by simp [isCumulative, h, hc]
        have hreq : RequestScore self schema n ScoreData.default =
            (Except.ok true, reported self schema n) := by
          simp [reported, RequestScore, h, hc]
        rw [requestLoop, hreq]
        simp only [List.filter_cons, hcum]
        rw [ih (out ++ [reported self schema n]) hrest]
        simp

theorem reported_name (self : ScoreManager Score) (schema : InstanceSchema Score)
    (n : ScoreName) (hc : isCumulative schema n = true) :
    (reported self schema n).name = some n := by
  cases h : schema.score_calculator n with
  | none => simp [isCumulative, h] at hc
  | some cal =>
    have hc2 : cal.is_cumulative = true := by simpa [isCumulative, h] using hc
    simp [reported, RequestScore, h, hc2, ScoreData.set_name]

theorem reported_data (self : ScoreManager Score) (schema : InstanceSchema Score)
    (n : ScoreName) (v : Score) (hc : isCumulative schema n = true)
    (hf : ScoreMap.find self.score_map_ n = some v) :
    (reported self schema n).data = some (Message.SerializeAsString v) := by
  cases h : schema.score_calculator n with
  | none => simp [isCumulative, h] at hc
  | some cal =>
    have hc2 : cal.is_cumulative = true := by simpa [isCumulative, h] using hc
    simp [reported, RequestScore, h, hc2, hf, ScoreData.set_name, ScoreData.set_type,
      ScoreData.set_data]

theorem Append_keeps_nodup (self : ScoreManager Score) (schema : InstanceSchema Score)
    (score_name : ScoreName) (score_blob : String)
    (hnd : (ScoreMap.names self.score_map_).Nodup) :
    (ScoreMap.names (Append self schema score_name score_blob).1.score_map_).Nodup := by
  cases h : schema.score_calculator score_name with
  | none => rw [Append_unresolved self schema score_name score_blob h]; exact hnd
  | some cal =>
    cases hp : Message.ParseFromString cal.CreateScore score_blob with
    | none => rw [Append_unparsed self schema score_name score_blob cal h hp]; exact hnd
    | some inc =>
      cases hf : ScoreMap.find self.score_map_ score_name with
      | none =>
        rw [Append_absent self schema score_name score_blob cal inc h hp hf]
        exact ScoreMap.names_insert_nodup _ _ _ hnd hf
      | some existing =>
        rw [Append_present self schema score_name score_blob cal inc existing h hp hf]
        show (ScoreMap.names (ScoreMap.assign self.score_map_ score_name _)).Nodup
        rw [ScoreMap.names_assign]
        exact hnd

theorem after_keeps_nodup (self : ScoreManager Score) (c : Method Score)
    (hnd : (ScoreMap.names self.score_map_).Nodup) :
    (ScoreMap.names (after self c).score_map_).Nodup := by
  cases c with
  | Append schema score_name score_blob =>
    exact Append_keeps_nodup self schema score_name score_blob hnd
  | Clear => simp [after, Clear, ScoreMap.names]
  | RequestScore schema score_name score_data => exact hnd
  | RequestAllScores schema score_data => exact hnd

theorem afterAll_keeps_nodup (calls : List (Method Score)) :
    ∀ self : ScoreManager Score, (ScoreMap.names self.score_map_).Nodup →
      (ScoreMap.names (afterAll self calls).score_map_).Nodup := by
  induction calls with
  | nil => intro self h; exact h
  | cons c rest ih =>
    intro self h
    exact ih (after self c) (after_keeps_nodup self c h)

theorem Append_find_other (self : ScoreManager Score) (schema : InstanceSchema Score)
    (score_name other : ScoreName) (score_blob : String) (hne : other ≠ score_name) :
    ScoreMap.find (Append self schema score_name score_blob).1.score_map_ other =
      ScoreMap.find self.score_map_ other := by
  cases h : schema.score_calculator score_name with
  | none => rw [Append_unresolved self schema score_name score_blob h]
  | some cal =>
    cases hp : Message.ParseFromString cal.CreateScore score_blob with
    | none => rw [Append_unparsed self schema score_name score_blob cal h hp]
    | some inc =>
      cases hf : ScoreMap.find self.score_map_ score_name with
      | none =>
        rw [Append_absent self schema score_name score_blob cal inc h hp hf]
        exact ScoreMap.find_insert_other _ _ _ _ hne
      | some existing =>
        rw [Append_present self schema score_name score_blob cal inc existing h hp hf]
        exact ScoreMap.find_assign_other _ _ _ _ hne

theorem RequestScore_unresolved (self : ScoreManager Score) (schema : InstanceSchema Score)
    (score_name : ScoreName) (score_data : ScoreData)
    (h : schema.score_calculator score_name = none) :
    RequestScore self schema score_name score_data =
      (Except.error (Error.InvalidOperation
        ("Attempt to request non-existing score: " ++ score_name)), score_data) := by
  simp [RequestScore, h]

theorem requested_not_cumulative (self : ScoreManager Score) (schema : InstanceSchema Score)
    (score_name : ScoreName) (cal : ScoreCalculatorInterface Score)
    (h : schema.score_calculator score_name = some cal) (hc : cal.is_cumulative = false) :
    requested self schema score_name = none := by
  simp [requested, RequestScore_not_cumulative self schema score_name _ cal h hc]

/-- The loop of `RequestAllScores` over names that the schema resolves, in terms of what
`RequestScore` returns for each name. -/
theorem requestLoop_filterMap (self : ScoreManager Score) (schema : InstanceSchema Score)
    (ns : List ScoreName) :
    ∀ out : List ScoreData, (∀ n ∈ ns, schema.score_calculator n ≠ none) →
      requestLoop self schema ns out =
        (Except.ok (), out ++ ns.filterMap (requested self schema)) := by
  induction ns with
  | nil => intro out _; simp [requestLoop]
  | cons n rest ih =>
    intro out hres
    have hrest : ∀ k ∈ rest, schema.score_calculator k ≠ none :=
      fun k hk => hres k (List.mem_cons_of_mem _ hk)
    cases h : schema.score_calculator n with
    | none => exact absurd h (hres n (List.mem_cons_self _ _))
    | some cal =>
      cases hc : cal.is_cumulative with
      | false =>
        rw [requestLoop, RequestScore_not_cumulative self schema n _ cal h hc]
        simp only [List.filterMap_cons, requested_not_cumulative self schema n cal h hc]
        exact ih out hrest
      | true =>
        have hreq : RequestScore self schema n ScoreData.default =
            (Except.ok true, reported self schema n) := by
          simp [reported, RequestScore, h, hc]
        have hsome : requested self schema n = some (reported self schema n) := by
          simp [requested, hreq]
        rw [requestLoop, hreq]
        simp only [List.filterMap_cons, hsome]
        rw [ih (out ++ [reported self schema n]) hrest]
        simp

/-- The loop of `RequestAllScores` throws exactly when one of the names is not resolved
by the schema. -/
theorem requestLoop_error_iff (self : ScoreManager Score) (schema : InstanceSchema Score)
    (ns : List ScoreName) :
    ∀ out : List ScoreData,
      (∃ e, (requestLoop self schema ns out).1 = Except.error e) ↔
        ∃ n ∈ ns, schema.score_calculator n = none := by
  induction ns with
  | nil => intro out; simp [requestLoop]
  | cons n rest ih =>
    intro out
    cases h : schema.score_calculator n with
    | none =>
      rw [requestLoop, RequestScore_unresolved self schema n _ h]
      constructor
      · intro _; exact ⟨n, List.mem_cons_self _ _, h⟩
      · intro _; exact ⟨_, rfl⟩
    | some cal =>
      have hiff : (∃ k ∈ n :: rest, schema.score_calculator k = none) ↔
          ∃ k ∈ rest, schema.score_calculator k = none := by
        constructor
        · rintro ⟨k, hk, hnone⟩
          rcases List.mem_cons.mp hk with rfl | hk
          · rw [h] at hnone; cases hnone
          · exact ⟨k, hk, hnone⟩
        · rintro ⟨k, hk, hnone⟩
          exact ⟨k, List.mem_cons_of_mem _ hk, hnone⟩
      rw [hiff]
      cases hc : cal.is_cumulative with
      | false =>
        rw [requestLoop, RequestScore_not_cumulative self schema n _ cal h hc]
        exact ih out
      | true =>
        have hreq : RequestScore self schema n ScoreData.default =
            (Except.ok true, reported self schema n) := by
          simp [reported, RequestScore, h, hc]
        rw [requestLoop, hreq]
        exact ih (out ++ [reported self schema n])

end ScoreManager

/-! ## Facts about the interleaved executions -/

namespace SharedManager

variable {Score : Type}

theorem set_getElem_same {α : Type} (l : List α) (i : Nat) (x : α)
    (h : l[i]? = some x) : l.set i x = l := by
  apply List.ext_getElem?
  intro j
  by_cases hij : i = j
  · subst hij
    rw [List.getElem?_set_self (List.getElem?_eq_some.mp h).1, h]
  · rw [List.getElem?_set_ne hij]

theorem sum_map_set_lt {α : Type} (w : α → Nat) :
    ∀ (l : List α) (i : Nat) (c c1 : α), l[i]? = some c → w c1 < w c →
      ((l.set i c1).map w).sum < (l.map w).sum := by
  intro l
  induction l with
  | nil => intro i c c1 h; simp at h
  | cons x rest ih =>
    intro i c c1 h hw
    cases i with
    | zero =>
      simp only [List.getElem?_cons_zero, Option.some.injEq] at h
      subst h
      simp only [List.set_cons_zero, List.map_cons, List.sum_cons]
      omega
    | succ j =>
      simp only [List.getElem?_cons_succ] at h
      have := ih j c c1 h hw
      simp only [List.set_cons_succ, List.map_cons, List.sum_cons]
      omega

theorem Interleaving_mem {α : Type} (qs : List (List α)) (l : List α)
    (h : Interleaving qs l) : ∀ a ∈ l, ∃ q ∈ qs, a ∈ q := by
  induction h with
  | done qs _ => intro a ha; cases ha
  | next qs i a q l hget _ ih =>
    have hmem : (a :: q) ∈ qs := List.mem_iff_getElem?.mpr ⟨i, hget⟩
    intro x hx
    rcases List.mem_cons.mp hx with rfl | hx
    · exact ⟨x :: q, hmem, List.mem_cons_self _ _⟩
    · obtain ⟨q1, hq1, hxq⟩ := ih x hx
      rcases List.mem_or_eq_of_mem_set hq1 with hin | heq
      · exact ⟨q1, hin, hxq⟩
      · subst heq
        exact ⟨a :: q1, hmem, List.mem_cons_of_mem _ hxq⟩

theorem exists_parsed {α β : Type} (f : α → Option β) :
    ∀ l : List α, (∀ b ∈ l, (f b).isSome = true) → ∃ ps : List β, l.map f = ps.map some := by
  intro l
  induction l with
  | nil => intro _; exact ⟨[], rfl⟩
  | cons b rest ih =>
    intro h
    obtain ⟨ps, hps⟩ := ih (fun x hx => h x (List.mem_cons_of_mem _ hx))
    obtain ⟨p, hp⟩ := Option.isSome_iff_exists.mp (h b (List.mem_cons_self _ _))
    exact ⟨p :: ps, by simp [hp, hps]⟩

theorem weight_set_lt (s s1 : SharedManager Score) (t : Nat) (c c1 : Caller Score)
    (hcallers : s1.callers = s.callers.set t c1) (hc : s.callers[t]? = some c)
    (hw : c1.weight < c.weight) : weight s1 < weight s := by
  unfold weight
  rw [hcallers]
  exact sum_map_set_lt Caller.weight s.callers t c c1 hc hw

theorem pendings_of_finished (s : SharedManager Score) (h : finished s = true) :
    ∀ q ∈ pendings s, q = [] := by
  intro q hq
  obtain ⟨c, hc, rfl⟩ := List.mem_map.mp hq
  have hfin : c.finished = true := List.all_eq_true.mp h c hc
  obtain ⟨pc, todo⟩ := c
  cases pc <;> cases todo <;> simp_all [Caller.finished, Caller.pending]

theorem pendings_init (queues : List (List (AppendCall Score))) :
    pendings (init queues) = queues := by
  unfold pendings init
  simp only [List.map_map]
  exact (List.map_congr_left (fun q _ => rfl)).trans (List.map_id queues)

variable [Message Score]

theorem localInv_frame (m m1 : ScoreMap Score) (l l1 : Option Nat) (t : Nat)
    (c : Caller Score) (h : localInv m l t c) (hl : l ≠ some t) (hl1 : l1 ≠ some t) :
    localInv m1 l1 t c := by
  obtain ⟨pc, todo⟩ := c
  cases pc with
  | outside => exact hl1
  | line34 call cal inc => exact ⟨hl1, h.2⟩
  | line35 call cal inc => exact absurd h.1 hl
  | line36 call cal inc b => exact absurd h.1 hl
  | line38 call v => exact absurd h.1 hl
  | line42 => exact absurd h hl

theorem Inv_of_set (s s1 : SharedManager Score) (t : Nat) (c1 : Caller Score)
    (hcallers : s1.callers = s.callers.set t c1)
    (hself : localInv s1.score_map_ s1.lock_ t c1)
    (hother : ∀ u c, u ≠ t → s.callers[u]? = some c → localInv s1.score_map_ s1.lock_ u c)
    (hlock : ∀ u, s1.lock_ = some u → u < s.callers.length) : Inv s1 := by
  constructor
  · intro u c hu
    rw [hcallers] at hu
    by_cases hut : t = u
    · subst hut
      rw [List.getElem?_set] at hu
      simp only [if_true] at hu
      split at hu
      · cases hu; exact hself
      · cases hu
    · rw [List.getElem?_set_ne hut] at hu
      exact hother u c (fun h => hut h.symm) hu
  · intro u hu
    rw [hcallers, List.length_set]
    exact hlock u hu

theorem sim_same (s s1 : SharedManager Score) (t : Nat) (c c1 : Caller Score)
    (hcallers : s1.callers = s.callers.set t c1) (hc : s.callers[t]? = some c)
    (hp : c1.pending = c.pending) (hmap : s1.score_map_ = s.score_map_) :
    (s1.score_map_ = s.score_map_ ∧ pendings s1 = pendings s) ∨
      ∃ call q, (pendings s)[t]? = some (call :: q) ∧
        pendings s1 = (pendings s).set t q ∧ s1.score_map_ = applyCall s.score_map_ call := by
  refine Or.inl ⟨hmap, ?_⟩
  unfold pendings
  rw [hcallers, List.map_set, hp]
  apply set_getElem_same
  rw [List.getElem?_map, hc]
  rfl

theorem sim_pop (s s1 : SharedManager Score) (t : Nat) (c c1 : Caller Score)
    (call : AppendCall Score)
    (hcallers : s1.callers = s.callers.set t c1) (hc : s.callers[t]? = some c)
    (hp : c.pending = call :: c1.pending)
    (hmap : s1.score_map_ = applyCall s.score_map_ call) :
    (s1.score_map_ = s.score_map_ ∧ pendings s1 = pendings s) ∨
      ∃ call q, (pendings s)[t]? = some (call :: q) ∧
        pendings s1 = (pendings s).set t q ∧ s1.score_map_ = applyCall s.score_map_ call := by
  refine Or.inr ⟨call, c1.pending, ?_, ?_, hmap⟩
  · unfold pendings
    rw [List.getElem?_map, hc, ← hp]
    rfl
  · unfold pendings
    rw [hcallers, List.map_set]

theorem applyCall_unresolved (m : ScoreMap Score) (call : AppendCall Score)
    (h : call.schema.score_calculator call.score_name = none) : applyCall m call = m := by
  simp [applyCall, ScoreManager.Append, h]

theorem applyCall_unparsed (m : ScoreMap Score) (call : AppendCall Score)
    (cal : ScoreCalculatorInterface Score)
    (h : call.schema.score_calculator call.score_name = some cal)
    (hp : Message.ParseFromString cal.CreateScore call.score_blob = none) :
    applyCall m call = m := by
  simp [applyCall, ScoreManager.Append, h, hp]

theorem applyCall_absent (m : ScoreMap Score) (call : AppendCall Score)
    (cal : ScoreCalculatorInterface Score) (inc : Score) (h : Parsed call cal inc)
    (hf : ScoreMap.find m call.score_name = none) :
    applyCall m call = ScoreMap.insert m call.score_name inc := by
  simp [applyCall, ScoreManager.Append, h.1, h.2, hf]

theorem applyCall_present (m : ScoreMap Score) (call : AppendCall Score)
    (cal : ScoreCalculatorInterface Score) (inc existing : Score) (h : Parsed call cal inc)
    (hf : ScoreMap.find m call.score_name = some existing) :
    applyCall m call = ScoreMap.assign m call.score_name (cal.AppendScore existing inc) := by
  simp [applyCall, ScoreManager.Append, h.1, h.2, hf]

/-- One step of a caller keeps the invariant, and either leaves the map and the pending
calls as they are or makes the first pending call of the caller take effect. -/
theorem step_sim (s : SharedManager Score) (t : Nat) (hinv : Inv s) :
    Inv (step s t) ∧
      (((step s t).score_map_ = s.score_map_ ∧ pendings (step s t) = pendings s) ∨
        ∃ call q, (pendings s)[t]? = some (call :: q) ∧
          pendings (step s t) = (pendings s).set t q ∧
          (step s t).score_map_ = applyCall s.score_map_ call) := by
  cases hc : s.callers[t]? with
  | none =>
    have hst : step s t = s := by simp [step, hc]
    rw [hst]; exact ⟨hinv, Or.inl ⟨rfl, rfl⟩⟩
  | some c =>
    obtain ⟨pc, todo⟩ := c
    have hloc := hinv.1 t _ hc
    have hlt : t < s.callers.length := (List.getElem?_eq_some.mp hc).1
    have hkeep : ∀ u c, u ≠ t → s.callers[u]? = some c →
        localInv s.score_map_ s.lock_ u c := fun u c _ hu => hinv.1 u c hu
    cases pc with
    | outside =>
      cases todo with
      | nil =>
        have hst : step s t = s := by simp [step, hc]
        rw [hst]; exact ⟨hinv, Or.inl ⟨rfl, rfl⟩⟩
      | cons call rest =>
        cases hres : call.schema.score_calculator call.score_name with
        | none =>
          simp only [step, hc, hres]
          exact ⟨Inv_of_set s _ t { pc := .outside, todo := rest } rfl hloc hkeep hinv.2,
            sim_pop s _ t _ { pc := .outside, todo := rest } call rfl hc rfl
              (applyCall_unresolved _ _ hres).symm⟩
        | some cal =>
          cases hparse : Message.ParseFromString cal.CreateScore call.score_blob with
          | none =>
            simp only [step, hc, hres, hparse]
            exact ⟨Inv_of_set s _ t { pc := .outside, todo := rest } rfl hloc hkeep hinv.2,
              sim_pop s _ t _ { pc := .outside, todo := rest } call rfl hc rfl
                (applyCall_unparsed _ _ cal hres hparse).symm⟩
          | some inc =>
            simp only [step, hc, hres, hparse]
            exact ⟨Inv_of_set s _ t { pc := .line34 call cal inc, todo := rest } rfl
              ⟨hloc, hres, hparse⟩ hkeep hinv.2,
              sim_same s _ t _ { pc := .line34 call cal inc, todo := rest } rfl hc rfl rfl⟩
    | line34 call cal inc =>
      cases hl : s.lock_ with
      | some u =>
        have hst : step s t = s := by simp [step, hc, hl]
        rw [hst]; exact ⟨hinv, Or.inl ⟨rfl, rfl⟩⟩
      | none =>
        simp only [step, hc, hl]
        refine ⟨Inv_of_set s _ t { pc := .line35 call cal inc, todo := todo } rfl
          ⟨rfl, hloc.2⟩ ?_ ?_,
          sim_same s _ t _ { pc := .line35 call cal inc, todo := todo } rfl hc rfl rfl⟩
        · intro u c hut hu
          refine localInv_frame s.score_map_ _ s.lock_ _ u c (hinv.1 u c hu) ?_ ?_
          · rw [hl]; simp
          · intro h; exact hut (Option.some.inj h).symm
        · intro u hu
          cases hu
          exact hlt
    | line35 call cal inc =>
      simp only [step, hc]
      exact ⟨Inv_of_set s _ t
        { pc := .line36 call cal inc (ScoreMap.find s.score_map_ call.score_name).isSome,
          todo := todo } rfl ⟨hloc.1, hloc.2, rfl⟩ hkeep hinv.2,
        sim_same s _ t _
          { pc := .line36 call cal inc (ScoreMap.find s.score_map_ call.score_name).isSome,
            todo := todo } rfl hc rfl rfl⟩
    | line36 call cal inc b =>
      obtain ⟨hlock, hparsed, hb⟩ := hloc
      have hframe : ∀ (m1 : ScoreMap Score) u c, u ≠ t → s.callers[u]? = some c →
          localInv m1 s.lock_ u c := by
        intro m1 u c hut hu
        have hne : s.lock_ ≠ some u := by
          rw [hlock]; intro h; exact hut (Option.some.inj h).symm
        exact localInv_frame s.score_map_ m1 s.lock_ s.lock_ u c (hinv.1 u c hu) hne hne
      cases b with
      | true =>
        cases hfind : ScoreMap.find s.score_map_ call.score_name with
        | none => rw [hfind] at hb; simp at hb
        | some existing =>
          simp only [step, hc, hfind, if_true]
          exact ⟨Inv_of_set s _ t
            { pc := .line38 call (cal.AppendScore existing inc), todo := todo } rfl
            ⟨hlock, cal, inc, existing, hparsed, hfind, rfl⟩ hkeep hinv.2,
            sim_same s _ t _
              { pc := .line38 call (cal.AppendScore existing inc), todo := todo }
              rfl hc rfl rfl⟩
      | false =>
        have hfind : ScoreMap.find s.score_map_ call.score_name = none := by
          cases h : ScoreMap.find s.score_map_ call.score_name with
          | none => rfl
          | some v => rw [h] at hb; simp at hb
        simp only [step, hc, Bool.false_eq_true, if_false]
        exact ⟨Inv_of_set s _ t { pc := .line42, todo := todo } rfl hlock
          (hframe _) hinv.2,
          sim_pop s { setCaller s t .line42 todo with
              score_map_ := ScoreMap.insert s.score_map_ call.score_name inc }
            t _ { pc := .line42, todo := todo } call rfl hc rfl
            (applyCall_absent _ _ cal inc hparsed hfind).symm⟩
    | line38 call v =>
      obtain ⟨hlock, cal, inc, existing, hparsed, hfind, hv⟩ := hloc
      have hframe : ∀ (m1 : ScoreMap Score) u c, u ≠ t → s.callers[u]? = some c →
          localInv m1 s.lock_ u c := by
        intro m1 u c hut hu
        have hne : s.lock_ ≠ some u := by
          rw [hlock]; intro h; exact hut (Option.some.inj h).symm
        exact localInv_frame s.score_map_ m1 s.lock_ s.lock_ u c (hinv.1 u c hu) hne hne
      simp only [step, hc]
      refine ⟨Inv_of_set s _ t { pc := .line42, todo := todo } rfl hlock
        (hframe _) hinv.2,
        sim_pop s { setCaller s t .line42 todo with
            score_map_ := ScoreMap.assign s.score_map_ call.score_name v }
          t _ { pc := .line42, todo := todo } call rfl hc rfl ?_⟩
      rw [applyCall_present _ _ cal inc existing hparsed hfind, hv]
    | line42 =>
      simp only [step, hc]
      refine ⟨Inv_of_set s _ t { pc := .outside, todo := todo } rfl ?_ ?_ ?_,
        sim_same s _ t _ { pc := .outside, todo := todo } rfl hc rfl rfl⟩
      · show (none : Option Nat) ≠ some t
        simp
      · intro u c hut hu
        refine localInv_frame s.score_map_ _ s.lock_ none u c (hinv.1 u c hu) ?_ (by simp)
        have hlock : s.lock_ = some t := hloc
        rw [hlock]; intro h; exact hut (Option.some.inj h).symm
      · intro u hu
        cases hu

theorem Inv_init (queues : List (List (AppendCall Score))) : Inv (init queues) := by
  constructor
  · intro t c hc
    simp only [init, List.getElem?_map] at hc
    cases hq : queues[t]? with
    | none => rw [hq] at hc; cases hc
    | some q =>
      rw [hq] at hc
      cases hc
      show (none : Option Nat) ≠ some t
      simp
  · intro t ht
    cases ht

theorem Inv_run (schedule : List Nat) : ∀ s : SharedManager Score, Inv s →
    Inv (run s schedule) := by
  induction schedule with
  | nil => intro s h; exact h
  | cons t rest ih =>
    intro s h
    exact ih (step s t) (step_sim s t h).1

theorem run_append (s : SharedManager Score) (a b : List Nat) :
    run s (a ++ b) = run (run s a) b := by
  simp [run, List.foldl_append]

/-- Safety: when a schedule ends with every caller returned, the map is what the pending
calls yield when they run one after the other in some order that interleaves them. -/
theorem run_linearizable (schedule : List Nat) : ∀ s : SharedManager Score, Inv s →
    finished (run s schedule) = true →
    ∃ order, Interleaving (pendings s) order ∧
      (run s schedule).score_map_ = order.foldl applyCall s.score_map_ := by
  induction schedule with
  | nil =>
    intro s _ hfin
    exact ⟨[], Interleaving.done _ (pendings_of_finished s hfin), rfl⟩
  | cons t rest ih =>
    intro s hinv hfin
    obtain ⟨hinv1, hsim⟩ := step_sim s t hinv
    obtain ⟨order, hord, hmap⟩ := ih (step s t) hinv1 hfin
    rcases hsim with ⟨hm, hp⟩ | ⟨call, q, hget, hp, hm⟩
    · refine ⟨order, ?_, ?_⟩
      · rw [← hp]; exact hord
      · rw [← hm]; exact hmap
    · refine ⟨call :: order, Interleaving.next _ t call q order hget ?_, ?_⟩
      · rw [← hp]; exact hord
      · rw [List.foldl_cons, ← hm]; exact hmap

theorem Interleaving_of_map {α β : Type} (f : α → β) :
    ∀ (l : List β) (qs : List (List α)), Interleaving (qs.map (List.map f)) l →
      ∃ l0, l = l0.map f ∧ Interleaving qs l0 := by
  intro l
  induction l with
  | nil =>
    intro qs h
    cases h with
    | done _ hall =>
      refine ⟨[], rfl, Interleaving.done qs ?_⟩
      intro q hq
      have := hall (q.map f) (List.mem_map_of_mem _ hq)
      simpa using this
  | cons b l ih =>
    intro qs h
    cases h with
    | next _ i _ q _ hget hrest =>
      rw [List.getElem?_map] at hget
      cases hq : qs[i]? with
      | none => rw [hq] at hget; cases hget
      | some q0 =>
        rw [hq] at hget
        cases q0 with
        | nil => simp at hget
        | cons a0 q1 =>
          simp only [Option.map_some', List.map_cons, Option.some.injEq,
            List.cons.injEq] at hget
          obtain ⟨hb, hq1⟩ := hget
          have hset : (qs.map (List.map f)).set i q = (qs.set i q1).map (List.map f) := by
            rw [List.map_set, hq1]
          rw [hset] at hrest
          obtain ⟨l0, hl0, hi⟩ := ih (qs.set i q1) hrest
          exact ⟨a0 :: l0, by simp [hb, hl0], Interleaving.next qs i a0 q1 l0 hq hi⟩

theorem foldl_applyCall (schema : InstanceSchema Score) (score_name : ScoreName)
    (bs : List String) : ∀ m : ScoreMap Score,
    (bs.map (fun b => ({ schema := schema, score_name := score_name, score_blob := b } :
      AppendCall Score))).foldl applyCall m =
      (ScoreManager.appendAll { score_map_ := m } schema score_name bs).score_map_ := by
  induction bs with
  | nil => intro m; rfl
  | cons b rest ih =>
    intro m
    simp only [List.map_cons, List.foldl_cons, ScoreManager.appendAll]
    rw [ih]
    rfl

/-- No deadlock: while some caller has not returned, some caller can make a step that
brings the callers closer to the end. -/
theorem exists_step_decreasing (s : SharedManager Score) (hinv : Inv s)
    (hnf : finished s = false) : ∃ t, weight (step s t) < weight s := by
  cases hl : s.lock_ with
  | some t =>
    have hlt : t < s.callers.length := hinv.2 t hl
    obtain ⟨c, hc⟩ : ∃ c, s.callers[t]? = some c :=
      ⟨s.callers[t], List.getElem?_eq_getElem hlt⟩
    have hloc := hinv.1 t c hc
    rw [hl] at hloc
    refine ⟨t, ?_⟩
    obtain ⟨pc, todo⟩ := c
    cases pc with
    | outside => exact absurd rfl hloc
    | line34 call cal inc => exact absurd rfl hloc.1
    | line35 call cal inc =>
      simp only [step, hc]
      exact weight_set_lt s _ t _ _ rfl hc (by simp [Caller.weight])
    | line36 call cal inc b =>
      cases b with
      | true =>
        cases hfind : ScoreMap.find s.score_map_ call.score_name with
        | none =>
          have hb := hloc.2.2
          rw [hfind] at hb
          simp at hb
        | some existing =>
          simp only [step, hc, hfind, if_true]
          exact weight_set_lt s _ t _ _ rfl hc (by simp [Caller.weight])
      | false =>
        simp only [step, hc, Bool.false_eq_true, if_false]
        exact weight_set_lt s _ t _ _ rfl hc (by simp [Caller.weight])
    | line38 call v =>
      simp only [step, hc]
      exact weight_set_lt s _ t _ _ rfl hc (by simp [Caller.weight])
    | line42 =>
      simp only [step, hc]
      exact weight_set_lt s _ t _ _ rfl hc (by simp [Caller.weight])
  | none =>
    have hex : ∃ c ∈ s.callers, c.finished = false := by
      by_contra hno
      have hall : finished s = true := by
        unfold finished
        rw [List.all_eq_true]
        intro c hc
        by_contra hcf
        exact hno ⟨c, hc, by simpa using hcf⟩
      rw [hall] at hnf
      cases hnf
    obtain ⟨c, hmem, hcf⟩ := hex
    obtain ⟨t, hc⟩ := List.mem_iff_getElem?.mp hmem
    have hloc := hinv.1 t c hc
    rw [hl] at hloc
    refine ⟨t, ?_⟩
    obtain ⟨pc, todo⟩ := c
    cases pc with
    | outside =>
      cases todo with
      | nil => simp [Caller.finished] at hcf
      | cons call rest =>
        cases hres : call.schema.score_calculator call.score_name with
        | none =>
          simp only [step, hc, hres]
          exact weight_set_lt s _ t _ _ rfl hc (by simp [Caller.weight])
        | some cal =>
          cases hparse : Message.ParseFromString cal.CreateScore call.score_blob with
          | none =>
            simp only [step, hc, hres, hparse]
            exact weight_set_lt s _ t _ _ rfl hc (by simp [Caller.weight])
          | some inc =>
            simp only [step, hc, hres, hparse]
            exact weight_set_lt s _ t _ _ rfl hc (by simp [Caller.weight]; omega)
    | line34 call cal inc =>
      simp only [step, hc, hl]
      exact weight_set_lt s _ t _ _ rfl hc (by simp [Caller.weight])
    | line35 call cal inc => exact Option.noConfusion hloc.1
    | line36 call cal inc b => exact Option.noConfusion hloc.1
    | line38 call v => exact Option.noConfusion hloc.1
    | line42 => exact Option.noConfusion hloc

/-- Progress: every state of an interleaved execution can be continued to a state in
which every caller has returned. -/
theorem exists_completion (n : Nat) : ∀ s : SharedManager Score, Inv s → weight s ≤ n →
    ∃ more, finished (run s more) = true := by
  induction n with
  | zero =>
    intro s hinv hw
    cases hfin : finished s with
    | true => exact ⟨[], hfin⟩
    | false =>
      obtain ⟨t, ht⟩ := exists_step_decreasing s hinv hfin
      omega
  | succ n ih =>
    intro s hinv hw
    cases hfin : finished s with
    | true => exact ⟨[], hfin⟩
    | false =>
      obtain ⟨t, ht⟩ := exists_step_decreasing s hinv hfin
      obtain ⟨more, hmore⟩ := ih (step s t) (step_sim s t hinv).1 (by omega)
      exact ⟨t :: more, hmore⟩

end SharedManager

/-! ## Facts about the tracker -/

namespace ScoreTracker

theorem foldl_matching (p : ScoreData → Bool) (l : List ScoreData) :
    ∀ out : List ScoreData,
      l.foldl (fun out elem => if p elem = true then out ++ [elem] else out) out =
        out ++ l.filter p := by
  induction l with
  | nil => intro out; simp
  | cons x rest ih =>
    intro out
    cases hx : p x with
    | false => simp [List.foldl_cons, hx, ih]
    | true => simp [List.foldl_cons, hx, ih]

theorem RequestScoreArray_score (self : ScoreTracker) (args : GetScoreArrayArgs)
    (score_data_array : ScoreDataArray) :
    (RequestScoreArray self args score_data_array).2.score =
      score_data_array.score ++
        self.array_.filter (fun d => decide (d.getName = args.getScoreName)) := by
  have h := foldl_matching (fun d => decide (d.getName = args.getScoreName)) self.array_
    score_data_array.score
  simpa [RequestScoreArray] using h

theorem record_array (self : ScoreTracker) (content : String × ScoreData_Type × String) :
    (record self content).array_ = self.array_ ++ [populated content] := by
  simp [record, write, Add, populated, ScoreData.default, ScoreData.set_name,
    ScoreData.set_type, ScoreData.set_data]

theorem recordAll_array (contents : List (String × ScoreData_Type × String)) :
    ∀ self : ScoreTracker,
      (recordAll self contents).array_ = self.array_ ++ contents.map populated := by
  induction contents with
  | nil => intro self; simp [recordAll]
  | cons c rest ih =>
    intro self
    have h := ih (record self c)
    rw [record_array] at h
    simpa [recordAll] using h

end ScoreTracker

/-! ## Facts about the read methods -/

namespace ManagerMembers

variable {Score : Type}

theorem unlock_lock (self : ManagerMembers Score) (hfree : self.lock_ = false) :
    unlock (lock self) = self := by
  obtain ⟨m, l⟩ := self
  simp only at hfree
  subst hfree
  rfl

variable [Message Score]

/-- A `RequestScore` that starts with `lock_` free ends with the members as they were, and
its outcome and output are those of the body read as a function of the map. -/
theorem RequestScore_members (self : ManagerMembers Score) (schema : InstanceSchema Score)
    (score_name : ScoreName) (score_data : ScoreData) (hfree : self.lock_ = false) :
    RequestScore self schema score_name score_data =
      (self, ScoreManager.RequestScore { score_map_ := self.score_map_ } schema score_name
        score_data) := by
  cases h : schema.score_calculator score_name with
  | none => simp [RequestScore, ScoreManager.RequestScore, h]
  | some cal =>
    cases hc : cal.is_cumulative with
    | false => simp [RequestScore, ScoreManager.RequestScore, h, hc]
    | true =>
      simp only [RequestScore, ScoreManager.RequestScore, h, hc, Bool.not_true,
        Bool.false_eq_true, if_false, unlock_lock self hfree]
      rfl

theorem requestLoop_members (schema : InstanceSchema Score) (ns : List ScoreName) :
    ∀ (self : ManagerMembers Score) (out : List ScoreData), self.lock_ = false →
      requestLoop schema ns self out =
        (self, ScoreManager.requestLoop { score_map_ := self.score_map_ } schema ns out) := by
  induction ns with
  | nil => intro self out _; rfl
  | cons n rest ih =>
    intro self out hfree
    rw [requestLoop, ScoreManager.requestLoop, RequestScore_members self schema n _ hfree]
    rcases hr : ScoreManager.RequestScore { score_map_ := self.score_map_ } schema n
      ScoreData.default with ⟨outcome, d⟩
    cases outcome with
    | error e => rfl
    | ok b =>
      cases b with
      | true => exact ih self (out ++ [d]) hfree
      | false => exact ih self out hfree

theorem RequestAllScores_members (self : ManagerMembers Score)
    (schema : InstanceSchema Score) (score_data : Option (List ScoreData))
    (hfree : self.lock_ = false) :
    RequestAllScores self schema score_data =
      (self, ScoreManager.RequestAllScores { score_map_ := self.score_map_ } schema
        score_data) := by
  cases score_data with
  | none => rfl
  | some out =>
    simp only [RequestAllScores, ScoreManager.RequestAllScores, unlock_lock self hfree]
    rw [show (lock self).score_map_ = self.score_map_ from rfl,
      requestLoop_members schema _ self out hfree]
    rfl

end ManagerMembers

namespace TrackerMembers

theorem RequestScoreArray_members (self : TrackerMembers) (args : GetScoreArrayArgs)
    (score_data_array : ScoreDataArray) (hfree : self.lock_ = false) :
    RequestScoreArray self args score_data_array =
      (self, (ScoreTracker.RequestScoreArray { array_ := self.array_ } args
        score_data_array).2) := by
  obtain ⟨a, l⟩ := self
  simp only at hfree
  subst hfree
  rfl

end TrackerMembers

/-! ## The claims -/

namespace ScoreManager

variable {Score : Type} [Message Score]

/-- C1: with a schema that resolves the name and parseable increments `b1, bs`, the
sequential appends to an empty manager leave the map holding, for that name, exactly the
left fold of the merge over the parsed increments; the first append inserts the parsed
increment and an append on a stored value `existing` stores
`AppendScore existing increment`. -/
theorem Append_sequence_is_left_fold (schema : InstanceSchema Score) (score_name : ScoreName)
    (cal : ScoreCalculatorInterface Score) (b1 : String) (bs : List String)
    (p1 : Score) (ps : List Score)
    (hres : schema.score_calculator score_name = some cal)
    (hp1 : Message.ParseFromString cal.CreateScore b1 = some p1)
    (hps : bs.map (Message.ParseFromString cal.CreateScore) = ps.map some) :
    (appendAll empty schema score_name (b1 :: bs)).score_map_ =
        [(score_name, ps.foldl cal.AppendScore p1)] ∧
      ScoreMap.find (appendAll empty schema score_name (b1 :: bs)).score_map_ score_name =
        some (ps.foldl cal.AppendScore p1) ∧
      (Append empty schema score_name b1).1.score_map_ = [(score_name, p1)] ∧
      ∀ (s : ScoreManager Score) (existing : Score),
        ScoreMap.find s.score_map_ score_name = some existing →
        ScoreMap.find (Append s schema score_name b1).1.score_map_ score_name =
          some (cal.AppendScore existing p1) := by
  have hfirst : (Append empty schema score_name b1).1 =
      ({ score_map_ := [(score_name, p1)] } : ScoreManager Score) := by
    rw [Append_absent _ schema score_name b1 cal p1 hres hp1 (by simp [empty, ScoreMap.find])]
    simp [empty, ScoreMap.insert]
  have hall := appendAll_empty_cons schema score_name cal hres b1 bs p1 ps hp1 hps
  refine ⟨hall, ?_, ?_, ?_⟩
  · rw [hall]; simp [ScoreMap.find]
  · rw [hfirst]
  · intro s existing hex
    rw [Append_present s schema score_name b1 cal p1 existing hres hp1 hex]
    exact ScoreMap.find_assign_self _ _ existing _ hex

theorem Append_sequence_is_left_fold_witness :
    demoSchema.score_calculator "first" = some keepFirstCalculator ∧
      (appendAll empty demoSchema "first" ["+++", "++++", "+"]).score_map_ = [("first", 3)] :=
  ⟨rfl, (Append_sequence_is_left_fold demoSchema "first" keepFirstCalculator "+++"
    ["++++", "+"] 3 [4, 1] rfl rfl rfl).1⟩

/-- C3: when the schema has no calculator for the name, `Append` returns the manager
unchanged (whatever the bytes are) and only writes one line to the error log. -/
theorem Append_unknown_name_keeps_map (self : ScoreManager Score)
    (schema : InstanceSchema Score) (score_name : ScoreName) (score_blob : String)
    (h : schema.score_calculator score_name = none) :
    (Append self schema score_name score_blob).1 = self ∧
      (Append self schema score_name score_blob).2 =
        ["Unable to find score calculator: " ++ score_name] := by
  rw [Append_unresolved self schema score_name score_blob h]
  exact ⟨rfl, rfl⟩

theorem Append_unknown_name_keeps_map_witness :
    demoSchema.score_calculator "coherence" = none ∧
      (Append (appendAll empty demoSchema "perplexity" ["+++"]) demoSchema "coherence" "++").1 =
        appendAll empty demoSchema "perplexity" ["+++"] :=
  ⟨rfl, (Append_unknown_name_keeps_map (appendAll empty demoSchema "perplexity" ["+++"])
    demoSchema "coherence" "++" rfl).1⟩

/-- C4: when the calculator resolved for the name cannot parse the bytes, `Append` returns
the manager unchanged, so a value already stored for the name is still there, and only
writes one line to the error log. -/
theorem Append_unparseable_keeps_map (self : ScoreManager Score)
    (schema : InstanceSchema Score) (score_name : ScoreName) (score_blob : String)
    (cal : ScoreCalculatorInterface Score)
    (h : schema.score_calculator score_name = some cal)
    (hp : Message.ParseFromString cal.CreateScore score_blob = none) :
    (Append self schema score_name score_blob).1 = self ∧
      ScoreMap.find (Append self schema score_name score_blob).1.score_map_ score_name =
        ScoreMap.find self.score_map_ score_name ∧
      (Append self schema score_name score_blob).2 =
        ["Merger was unable to parse score blob. The scores might be inacurate."] := by
  rw [Append_unparsed self schema score_name score_blob cal h hp]
  exact ⟨rfl, rfl, rfl⟩

theorem Append_unparseable_keeps_map_witness :
    Message.ParseFromString sumCalculator.CreateScore "+-+" = none ∧
      ScoreMap.find (Append (appendAll empty demoSchema "perplexity" ["+++"]) demoSchema
        "perplexity" "+-+").1.score_map_ "perplexity" = some 3 :=
  ⟨rfl, (Append_unparseable_keeps_map (appendAll empty demoSchema "perplexity" ["+++"])
    demoSchema "perplexity" "+-+" sumCalculator rfl rfl).2.1⟩

/-- C5: `RequestScore` throws exactly when the schema has no calculator for the name,
whatever the map holds; the exception is `InvalidOperation` with the message of the source,
and the caller's `ScoreData` is not written. -/
theorem RequestScore_throws_iff_unresolved (self : ScoreManager Score)
    (schema : InstanceSchema Score) (score_name : ScoreName) (score_data : ScoreData) :
    ((∃ e, (RequestScore self schema score_name score_data).1 = Except.error e) ↔
        schema.score_calculator score_name = none) ∧
      (schema.score_calculator score_name = none →
        RequestScore self schema score_name score_data =
          (Except.error (Error.InvalidOperation
            ("Attempt to request non-existing score: " ++ score_name)), score_data)) := by
  cases h : schema.score_calculator score_name with
  | none => simp [RequestScore, h]
  | some cal =>
    cases hc : cal.is_cumulative <;> simp [RequestScore, h, hc]

theorem RequestScore_throws_iff_unresolved_witness :
    emptySchema.score_calculator "perplexity" = none ∧
      RequestScore (appendAll empty demoSchema "perplexity" ["+++"]) emptySchema "perplexity"
        ScoreData.default =
        (Except.error (Error.InvalidOperation
          ("Attempt to request non-existing score: " ++ "perplexity")), ScoreData.default) :=
  ⟨rfl, (RequestScore_throws_iff_unresolved (appendAll empty demoSchema "perplexity" ["+++"])
    emptySchema "perplexity" ScoreData.default).2 rfl⟩

/-- C6: when the calculator resolved for the name is not cumulative, `RequestScore` returns
`false` without an exception and leaves the caller's `ScoreData` as it was, whether or not
the map holds the name. -/
theorem RequestScore_non_cumulative_no_data (self : ScoreManager Score)
    (schema : InstanceSchema Score) (score_name : ScoreName) (score_data : ScoreData)
    (cal : ScoreCalculatorInterface Score)
    (h : schema.score_calculator score_name = some cal)
    (hc : cal.is_cumulative = false) :
    RequestScore self schema score_name score_data = (Except.ok false, score_data) :=
  RequestScore_not_cumulative self schema score_name score_data cal h hc

theorem RequestScore_non_cumulative_no_data_witness :
    ScoreMap.find (appendAll empty demoSchema "snapshot" ["++"]).score_map_ "snapshot" =
        some 2 ∧
      RequestScore (appendAll empty demoSchema "snapshot" ["++"]) demoSchema "snapshot"
        { name := some "old", type := some 7, data := none } =
        (Except.ok false, { name := some "old", type := some 7, data := none }) :=
  ⟨rfl, RequestScore_non_cumulative_no_data (appendAll empty demoSchema "snapshot" ["++"])
    demoSchema "snapshot" { name := some "old", type := some 7, data := none }
    snapshotCalculator rfl rfl⟩

/-- C7: when the map has no entry for the name and the schema resolves it to a cumulative
calculator, `RequestScore` returns `true` and the output carries the serialization of the
score freshly created by the calculator, the type of the calculator and the name. -/
theorem RequestScore_absent_gives_default (self : ScoreManager Score)
    (schema : InstanceSchema Score) (score_name : ScoreName) (score_data : ScoreData)
    (cal : ScoreCalculatorInterface Score)
    (h : schema.score_calculator score_name = some cal)
    (hc : cal.is_cumulative = true)
    (hf : ScoreMap.find self.score_map_ score_name = none) :
    RequestScore self schema score_name score_data =
      (Except.ok true,
        { name := some score_name, type := some cal.score_type,
          data := some (Message.SerializeAsString cal.CreateScore) }) :=
  RequestScore_cumulative_absent self schema score_name score_data cal h hc hf

theorem RequestScore_absent_gives_default_witness :
    ScoreMap.find (appendAll empty demoSchema "first" ["++"]).score_map_ "perplexity" = none ∧
      RequestScore (appendAll empty demoSchema "first" ["++"]) demoSchema "perplexity"
        ScoreData.default =
        (Except.ok true, { name := some "perplexity", type := some 0, data := some "" }) :=
  ⟨rfl, RequestScore_absent_gives_default (appendAll empty demoSchema "first" ["++"])
    demoSchema "perplexity" ScoreData.default sumCalculator rfl rfl rfl⟩

/-- C8: when the schema resolves the name to a cumulative calculator, `RequestScore` on a
map holding `v` for the name returns `true` with the bytes `serialize v`, the type of the
calculator and the name; after sequential appends of parseable increments to an empty
manager these bytes are the serialization of the left fold of the merge. -/
theorem RequestScore_present_gives_stored (schema : InstanceSchema Score)
    (score_name : ScoreName) (cal : ScoreCalculatorInterface Score)
    (h : schema.score_calculator score_name = some cal)
    (hc : cal.is_cumulative = true) :
    (∀ (self : ScoreManager Score) (v : Score) (score_data : ScoreData),
        ScoreMap.find self.score_map_ score_name = some v →
        RequestScore self schema score_name score_data =
          (Except.ok true,
            { name := some score_name, type := some cal.score_type,
              data := some (Message.SerializeAsString v) })) ∧
      ∀ (b1 : String) (bs : List String) (p1 : Score) (ps : List Score)
        (score_data : ScoreData),
        Message.ParseFromString cal.CreateScore b1 = some p1 →
        bs.map (Message.ParseFromString cal.CreateScore) = ps.map some →
        RequestScore (appendAll empty schema score_name (b1 :: bs)) schema score_name
            score_data =
          (Except.ok true,
            { name := some score_name, type := some cal.score_type,
              data := some (Message.SerializeAsString (ps.foldl cal.AppendScore p1)) }) := by
  refine ⟨fun self v score_data hf =>
    RequestScore_cumulative_present self schema score_name score_data cal v h hc hf, ?_⟩
  intro b1 bs p1 ps score_data hp1 hps
  apply RequestScore_cumulative_present _ schema score_name score_data cal _ h hc
  rw [appendAll_empty_cons schema score_name cal h b1 bs p1 ps hp1 hps]
  simp [ScoreMap.find]

theorem RequestScore_present_gives_stored_witness :
    demoSchema.score_calculator "perplexity" = some sumCalculator ∧
      sumCalculator.is_cumulative = true ∧
      RequestScore (appendAll empty demoSchema "perplexity" ["+++", "++++"]) demoSchema
        "perplexity" ScoreData.default =
        (Except.ok true,
          { name := some "perplexity", type := some 0, data := some "+++++++" }) :=
  ⟨rfl, rfl, (RequestScore_present_gives_stored demoSchema "perplexity" sumCalculator rfl
    rfl).2 "+++" ["++++"] 3 [4] ScoreData.default rfl rfl⟩

/-- C10: `RequestScore` after `Clear` has the same outcome and output as `RequestScore` on a
freshly constructed manager; for a name resolved to a cumulative calculator it is the
serialization of the score freshly created by the calculator. -/
theorem RequestScore_after_Clear_eq_fresh (s : ScoreManager Score)
    (schema : InstanceSchema Score) (score_name : ScoreName) (score_data : ScoreData) :
    RequestScore (Clear s) schema score_name score_data =
        RequestScore empty schema score_name score_data ∧
      ∀ cal : ScoreCalculatorInterface Score,
        schema.score_calculator score_name = some cal → cal.is_cumulative = true →
        RequestScore (Clear s) schema score_name score_data =
          (Except.ok true,
            { name := some score_name, type := some cal.score_type,
              data := some (Message.SerializeAsString cal.CreateScore) }) := by
  refine ⟨rfl, ?_⟩
  intro cal h hc
  exact RequestScore_cumulative_absent (Clear s) schema score_name score_data cal h hc
    (by simp [Clear, ScoreMap.find])

theorem RequestScore_after_Clear_eq_fresh_witness :
    demoSchema.score_calculator "perplexity" = some sumCalculator ∧
      RequestScore (Clear (appendAll empty demoSchema "perplexity" ["+++", "++++"]))
        demoSchema "perplexity" ScoreData.default =
        (Except.ok true, { name := some "perplexity", type := some 0, data := some "" }) :=
  ⟨rfl, (RequestScore_after_Clear_eq_fresh
    (appendAll empty demoSchema "perplexity" ["+++", "++++"]) demoSchema "perplexity"
    ScoreData.default).2 sumCalculator rfl rfl⟩

/-- C9, the claim as stated, fails: a map that holds a name whose calculator is not
cumulative is not reported in full, `RequestAllScores` skips that name. -/
theorem RequestAllScores_skips_non_cumulative :
    ¬ ReportsExactly (appendAll empty demoSchema "snapshot" ["++"]) demoSchema
      (ScoreMap.names (appendAll empty demoSchema "snapshot" ["++"]).score_map_) := by
  rintro ⟨out, hout, hnames, -⟩
  have hrun : RequestAllScores (appendAll empty demoSchema "snapshot" ["++"]) demoSchema
      (some []) = (Except.ok (), some []) := rfl
  rw [hrun] at hout
  have hnil : out = [] := by
    have := congrArg Prod.snd hout
    simpa using this.symm
  subst hnil
  have hstored : ScoreMap.names (appendAll empty demoSchema "snapshot" ["++"]).score_map_ =
      ["snapshot"] := rfl
  rw [hstored] at hnames
  simp at hnames

/-- C9, amended: when the schema resolves every name stored in the map, `RequestAllScores`
called with an empty output returns, without an exception, one `ScoreData` for each stored
name whose calculator is cumulative and no other, in the order of the map, each carrying
the serialization of the value that the map holds for its name. -/
theorem RequestAllScores_reports_cumulative_names (self : ScoreManager Score)
    (schema : InstanceSchema Score)
    (hres : ∀ n ∈ ScoreMap.names self.score_map_, schema.score_calculator n ≠ none) :
    ReportsExactly self schema
      ((ScoreMap.names self.score_map_).filter (isCumulative schema)) := by
  refine ⟨((ScoreMap.names self.score_map_).filter (isCumulative schema)).map
    (reported self schema), ?_, ?_, ?_⟩
  · simp [RequestAllScores, requestLoop_resolved self schema _ [] hres]
  · rw [List.map_map]
    apply List.map_congr_left
    intro n hn
    exact reported_name self schema n (List.mem_filter.mp hn).2
  · intro d hd
    obtain ⟨n, hn, rfl⟩ := List.mem_map.mp hd
    obtain ⟨hmem, hcum⟩ := List.mem_filter.mp hn
    cases hf : ScoreMap.find self.score_map_ n with
    | none => exact absurd hmem ((ScoreMap.find_eq_none_iff _ _).mp hf)
    | some v =>
      exact ⟨n, v, reported_name self schema n hcum, hf,
        reported_data self schema n v hcum hf⟩

theorem RequestAllScores_reports_cumulative_names_witness :
    (∀ n ∈ ScoreMap.names
        (appendAll (appendAll empty demoSchema "snapshot" ["++"]) demoSchema "perplexity"
          ["+++", "++++"]).score_map_, demoSchema.score_calculator n ≠ none) ∧
      ReportsExactly
        (appendAll (appendAll empty demoSchema "snapshot" ["++"]) demoSchema "perplexity"
          ["+++", "++++"]) demoSchema ["perplexity"] :=
  ⟨by intro n hn; fin_cases hn <;> simp [demoSchema],
   RequestAllScores_reports_cumulative_names
    (appendAll (appendAll empty demoSchema "snapshot" ["++"]) demoSchema "perplexity"
      ["+++", "++++"]) demoSchema
    (by intro n hn; fin_cases hn <;> simp [demoSchema])⟩

end ScoreManager

namespace SharedManager

variable {Score : Type} [Message Score]

/-- C2: callers that run their appends to one name concurrently, each call taking
`lock_` around its find, merge and store.  Whenever all callers have returned, the value
in the map is the left fold of `AppendScore` over the parsed increments in some order that
interleaves the callers' queues (every increment once, each caller's increments in its own
order), and the map is the one that the sequential appends in that order produce.  Every
partial execution can be continued until all callers have returned. -/
theorem concurrent_appends_linearize (schema : InstanceSchema Score)
    (score_name : ScoreName) (cal : ScoreCalculatorInterface Score)
    (queues : List (List String))
    (hres : schema.score_calculator score_name = some cal)
    (hparse : ∀ q ∈ queues, ∀ b ∈ q,
      (Message.ParseFromString cal.CreateScore b).isSome = true) :
    (∀ schedule : List Nat,
      finished (run (init (callsOf schema score_name queues)) schedule) = true →
      ∃ (order : List String) (ps : List Score),
        Interleaving queues order ∧
        order.map (Message.ParseFromString cal.CreateScore) = ps.map some ∧
        ScoreMap.find (run (init (callsOf schema score_name queues)) schedule).score_map_
          score_name = foldMerge cal ps ∧
        (run (init (callsOf schema score_name queues)) schedule).score_map_ =
          (ScoreManager.appendAll ScoreManager.empty schema score_name order).score_map_) ∧
      ∀ schedule : List Nat, ∃ more : List Nat,
        finished (run (init (callsOf schema score_name queues)) (schedule ++ more)) = true := by
  constructor
  · intro schedule hfin
    obtain ⟨corder, hinter, hmap⟩ :=
      run_linearizable schedule (init (callsOf schema score_name queues)) (Inv_init _) hfin
    rw [pendings_init] at hinter
    obtain ⟨order, rfl, hord⟩ := Interleaving_of_map _ corder queues hinter
    have hseq : (run (init (callsOf schema score_name queues)) schedule).score_map_ =
        (ScoreManager.appendAll ScoreManager.empty schema score_name order).score_map_ := by
      rw [hmap]
      exact foldl_applyCall schema score_name order []
    have hall : ∀ b ∈ order, (Message.ParseFromString cal.CreateScore b).isSome = true := by
      intro b hb
      obtain ⟨q, hq, hbq⟩ := Interleaving_mem queues order hord b hb
      exact hparse q hq b hbq
    obtain ⟨ps, hps⟩ := exists_parsed (Message.ParseFromString cal.CreateScore) order hall
    refine ⟨order, ps, hord, hps, ?_, hseq⟩
    rw [hseq]
    cases order with
    | nil =>
      cases ps with
      | nil => rfl
      | cons p rest => simp at hps
    | cons b1 bs =>
      cases ps with
      | nil => simp at hps
      | cons p1 rest =>
        simp only [List.map_cons, List.cons.injEq] at hps
        rw [ScoreManager.appendAll_empty_cons schema score_name cal hres b1 bs p1 rest
          (Option.some.inj (by rw [← hps.1])) hps.2]
        simp [ScoreMap.find, foldMerge]
  · intro schedule
    obtain ⟨more, hmore⟩ := exists_completion
      (weight (run (init (callsOf schema score_name queues)) schedule))
      (run (init (callsOf schema score_name queues)) schedule)
      (Inv_run schedule _ (Inv_init _)) (Nat.le_refl _)
    exact ⟨more, by rw [run_append]; exact hmore⟩

theorem concurrent_appends_linearize_witness :
    finished (run (init (callsOf demoSchema "first" [["+", "++"], ["+++"]]))
        [0, 1, 1, 0, 1, 1, 1, 0, 0, 0, 0, 0, 0, 0, 0, 0, 0, 0]) = true ∧
      ∃ (order : List String) (ps : List Nat),
        Interleaving [["+", "++"], ["+++"]] order ∧
        order.map (Message.ParseFromString keepFirstCalculator.CreateScore) = ps.map some ∧
        ScoreMap.find (run (init (callsOf demoSchema "first" [["+", "++"], ["+++"]]))
          [0, 1, 1, 0, 1, 1, 1, 0, 0, 0, 0, 0, 0, 0, 0, 0, 0, 0]).score_map_ "first" =
          foldMerge keepFirstCalculator ps ∧
        (run (init (callsOf demoSchema "first" [["+", "++"], ["+++"]]))
          [0, 1, 1, 0, 1, 1, 1, 0, 0, 0, 0, 0, 0, 0, 0, 0, 0, 0]).score_map_ =
          (ScoreManager.appendAll ScoreManager.empty demoSchema "first" order).score_map_ :=
  ⟨by decide, (concurrent_appends_linearize demoSchema "first" keepFirstCalculator
    [["+", "++"], ["+++"]] rfl (by decide)).1 [0, 1, 1, 0, 1, 1, 1, 0, 0, 0, 0, 0, 0, 0, 0, 0, 0, 0]
    (by decide)⟩

end SharedManager

namespace ScoreTracker

/-- C11: `RequestScoreArray` appends to the output the records whose name equals the
requested name, in the order of `array_`; for a history built by `Add` calls whose records
were then populated, and an empty output, the result is the order-preserving filter of the
checkpoints by name, each copy carrying the populated name, type and data. -/
theorem RequestScoreArray_is_filter_by_name
    (contents : List (String × ScoreData_Type × String)) (score_name : String) :
    (recordAll empty contents).array_ = contents.map populated ∧
      (RequestScoreArray (recordAll empty contents) { score_name := some score_name }
          { score := [] }).2.score =
        (contents.filter (fun c => decide (c.1 = score_name))).map populated ∧
      ∀ (self : ScoreTracker) (args : GetScoreArrayArgs) (score_data_array : ScoreDataArray),
        (RequestScoreArray self args score_data_array).2.score =
          score_data_array.score ++
            self.array_.filter (fun d => decide (d.getName = args.getScoreName)) := by
  have harr : (recordAll empty contents).array_ = contents.map populated := by
    simpa [empty] using recordAll_array contents empty
  refine ⟨harr, ?_, RequestScoreArray_score⟩
  rw [RequestScoreArray_score, harr, List.filter_map]
  simp only [List.nil_append]
  congr 1

/-- C14: `Add` yields the history followed by one empty record and returns the handle of
that last slot: the length grows by one and the earlier slots keep position and content.
`Clear` empties the sequence, and no other method and no write through a handle shortens
it. -/
theorem Add_appends_one_empty_record (h : ScoreTracker) :
    (Add h).1.array_ = h.array_ ++ [ScoreData.default] ∧
      (Add h).2 = h.array_.length ∧
      (Add h).1.array_[(Add h).2]? = some ScoreData.default ∧
      (Add h).1.array_.length = h.array_.length + 1 ∧
      (∀ i, i < h.array_.length → (Add h).1.array_[i]? = h.array_[i]?) ∧
      (∀ c : Method, (after h c).array_.length < h.array_.length → c = Method.Clear) ∧
      (Clear h).array_ = [] ∧
      ∀ (handle : Nat) (f : ScoreData → ScoreData),
        (write h handle f).array_.length = h.array_.length := by
  refine ⟨rfl, rfl, ?_, ?_, ?_, ?_, rfl, ?_⟩
  · simp [Add]
  · simp [Add]
  · intro i hi
    simp only [Add]
    exact List.getElem?_append_left hi
  · intro c hc
    cases c with
    | Clear => rfl
    | Add => simp [after, Add] at hc
    | RequestScoreArray args out => simp [after, RequestScoreArray] at hc
  · intro handle f
    unfold write
    cases h.array_[handle]? with
    | none => rfl
    | some r => simp

end ScoreTracker

namespace ScoreManager

variable {Score : Type} [Message Score]

/-- C13: after any sequence of method calls on a fresh manager the map holds at most one
entry per name, and an `Append` that resolves and parses adds one entry when the name is
absent and none when it is present. -/
theorem reachable_map_one_value_per_name (calls : List (Method Score))
    (schema : InstanceSchema Score) (score_name : ScoreName) (score_blob : String)
    (cal : ScoreCalculatorInterface Score) (inc : Score)
    (hres : schema.score_calculator score_name = some cal)
    (hp : Message.ParseFromString cal.CreateScore score_blob = some inc) :
    (ScoreMap.names (afterAll empty calls).score_map_).Nodup ∧
      (ScoreMap.find (afterAll empty calls).score_map_ score_name = none →
        (Append (afterAll empty calls) schema score_name score_blob).1.score_map_.length =
          (afterAll empty calls).score_map_.length + 1) ∧
      ((ScoreMap.find (afterAll empty calls).score_map_ score_name).isSome = true →
        (Append (afterAll empty calls) schema score_name score_blob).1.score_map_.length =
          (afterAll empty calls).score_map_.length) ∧
      (ScoreMap.names
        (Append (afterAll empty calls) schema score_name score_blob).1.score_map_).Nodup := by
  have hnd : (ScoreMap.names (afterAll empty calls).score_map_).Nodup :=
    afterAll_keeps_nodup calls empty (by simp [empty, ScoreMap.names])
  refine ⟨hnd, ?_, ?_, Append_keeps_nodup _ schema score_name score_blob hnd⟩
  · intro hf
    rw [Append_absent _ schema score_name score_blob cal inc hres hp hf]
    exact ScoreMap.length_insert _ _ _ hf
  · intro hsome
    obtain ⟨existing, hf⟩ := Option.isSome_iff_exists.mp hsome
    rw [Append_present _ schema score_name score_blob cal inc existing hres hp hf]
    exact ScoreMap.length_assign _ _ _

theorem reachable_map_one_value_per_name_witness :
    demoSchema.score_calculator "perplexity" = some sumCalculator ∧
      (ScoreMap.names (afterAll empty
        [Method.Append demoSchema "perplexity" "+", Method.Clear,
          Method.Append demoSchema "snapshot" "++",
          Method.Append demoSchema "first" "+"]).score_map_).Nodup ∧
      (Append (afterAll empty
        [Method.Append demoSchema "perplexity" "+", Method.Clear,
          Method.Append demoSchema "snapshot" "++",
          Method.Append demoSchema "first" "+"]) demoSchema "perplexity"
        "+++").1.score_map_.length = 3 :=
  ⟨rfl,
    (reachable_map_one_value_per_name
      [Method.Append demoSchema "perplexity" "+", Method.Clear,
        Method.Append demoSchema "snapshot" "++", Method.Append demoSchema "first" "+"]
      demoSchema "perplexity" "+++" sumCalculator 3 rfl rfl).1,
    (reachable_map_one_value_per_name
      [Method.Append demoSchema "perplexity" "+", Method.Clear,
        Method.Append demoSchema "snapshot" "++", Method.Append demoSchema "first" "+"]
      demoSchema "perplexity" "+++" sumCalculator 3 rfl rfl).2.1 rfl⟩

/-- C17: `Append` for a name leaves every other name as it was in the map: the same
presence and the same stored value. -/
theorem Append_keeps_other_names (self : ScoreManager Score) (schema : InstanceSchema Score)
    (n m : ScoreName) (score_blob : String) (hne : m ≠ n) :
    ScoreMap.find (Append self schema n score_blob).1.score_map_ m =
      ScoreMap.find self.score_map_ m :=
  Append_find_other self schema n m score_blob hne

theorem Append_keeps_other_names_witness :
    "first" ≠ "perplexity" ∧
      ScoreMap.find (Append (appendAll empty demoSchema "first" ["++"]) demoSchema
        "perplexity" "+++").1.score_map_ "first" = some 2 :=
  ⟨by decide, Append_keeps_other_names (appendAll empty demoSchema "first" ["++"]) demoSchema
    "perplexity" "first" "+++" (by decide)⟩

/-- C16: when the schema resolves every name stored in the map, `RequestAllScores` returns
without an exception and leaves in the output the entries it held, followed, in the order
of the names of the map, by what `RequestScore` fills into a fresh `ScoreData` for each
name for which it returns `true`; a name for which it returns `false` contributes
nothing. -/
theorem RequestAllScores_appends_requested (self : ScoreManager Score)
    (schema : InstanceSchema Score) (out : List ScoreData)
    (hres : ∀ n ∈ ScoreMap.names self.score_map_, schema.score_calculator n ≠ none) :
    RequestAllScores self schema (some out) =
      (Except.ok (),
        some (out ++ (ScoreMap.names self.score_map_).filterMap (requested self schema))) ∧
      ∀ n ∈ ScoreMap.names self.score_map_,
        (requested self schema n = none ↔
          RequestScore self schema n ScoreData.default = (Except.ok false, ScoreData.default)) ∧
        ∀ d, requested self schema n = some d ↔
          RequestScore self schema n ScoreData.default = (Except.ok true, d) := by
  constructor
  · simp [RequestAllScores, requestLoop_filterMap self schema _ out hres]
  · intro n hn
    cases h : schema.score_calculator n with
    | none => exact absurd h (hres n hn)
    | some cal =>
      cases hc : cal.is_cumulative with
      | false =>
        have hreq := RequestScore_not_cumulative self schema n ScoreData.default cal h hc
        simp [requested, hreq]
      | true =>
        have hreq : RequestScore self schema n ScoreData.default =
            (Except.ok true, reported self schema n) := by
          simp [reported, RequestScore, h, hc]
        simp [requested, hreq]

theorem RequestAllScores_appends_requested_witness :
    (∀ n ∈ ScoreMap.names
        (appendAll (appendAll (appendAll empty demoSchema "snapshot" ["++"]) demoSchema
          "perplexity" ["+++", "++++"]) demoSchema "first" ["+"]).score_map_,
        demoSchema.score_calculator n ≠ none) ∧
      RequestAllScores
        (appendAll (appendAll (appendAll empty demoSchema "snapshot" ["++"]) demoSchema
          "perplexity" ["+++", "++++"]) demoSchema "first" ["+"]) demoSchema
        (some [ScoreData.default]) =
        (Except.ok (),
          some [ScoreData.default,
            { name := some "first", type := some 1, data := some "+" },
            { name := some "perplexity", type := some 0, data := some "+++++++" }]) :=
  ⟨by intro n hn; fin_cases hn <;> simp [demoSchema],
   (RequestAllScores_appends_requested
    (appendAll (appendAll (appendAll empty demoSchema "snapshot" ["++"]) demoSchema
      "perplexity" ["+++", "++++"]) demoSchema "first" ["+"]) demoSchema [ScoreData.default]
    (by intro n hn; fin_cases hn <;> simp [demoSchema])).1⟩

/-- C18: `RequestAllScores` with a non-null output throws exactly when some name stored in
the map has no calculator in the schema passed to it; with a null output it returns at
once.  In particular it throws after an `Append` made under a schema that resolves the
name when it is called with a schema that does not. -/
theorem RequestAllScores_throws_iff_unresolved_stored (self : ScoreManager Score)
    (schema : InstanceSchema Score) (out : List ScoreData) :
    ((∃ e, (RequestAllScores self schema (some out)).1 = Except.error e) ↔
        ∃ n ∈ ScoreMap.names self.score_map_, schema.score_calculator n = none) ∧
      RequestAllScores self schema none = (Except.ok (), none) ∧
      ∀ (schema1 : InstanceSchema Score) (score_name : ScoreName) (score_blob : String)
        (cal : ScoreCalculatorInterface Score) (inc : Score),
        schema1.score_calculator score_name = some cal →
        Message.ParseFromString cal.CreateScore score_blob = some inc →
        schema.score_calculator score_name = none →
        (RequestAllScores (Append empty schema1 score_name score_blob).1 schema (some out)).1 =
          Except.error (Error.InvalidOperation
            ("Attempt to request non-existing score: " ++ score_name)) := by
  refine ⟨?_, rfl, ?_⟩
  · have h := requestLoop_error_iff self schema (ScoreMap.names self.score_map_) out
    simpa [RequestAllScores] using h
  · intro schema1 score_name score_blob cal inc h1 hp hnone
    rw [Append_absent empty schema1 score_name score_blob cal inc h1 hp
      (by simp [empty, ScoreMap.find])]
    simp [RequestAllScores, empty, ScoreMap.insert, ScoreMap.names, requestLoop,
      RequestScore_unresolved _ schema score_name _ hnone]

theorem RequestAllScores_throws_iff_unresolved_stored_witness :
    emptySchema.score_calculator "perplexity" = none ∧
      (RequestAllScores (Append empty demoSchema "perplexity" "+++").1 emptySchema
        (some [])).1 =
        Except.error (Error.InvalidOperation
          ("Attempt to request non-existing score: " ++ "perplexity")) :=
  ⟨rfl, (RequestAllScores_throws_iff_unresolved_stored
    (Append empty demoSchema "perplexity" "+++").1 emptySchema []).2.2 demoSchema
    "perplexity" "+++" sumCalculator 3 rfl rfl rfl⟩

/-- C12: with a cumulative calculator for `perplexity` over integers whose merge is the
sum and whose default is zero, and blobs that parse to 3, 4 and 5: after the appends of the
first two to a fresh manager `RequestScore` gives the serialization of 7, after the third
the serialization of 12, and after `Clear` the serialization of the default 0. -/
theorem perplexity_sum_end_to_end [Message Int] (schema : InstanceSchema Int)
    (cal : ScoreCalculatorInterface Int) (b3 b4 b5 : String) (score_data : ScoreData)
    (hres : schema.score_calculator "perplexity" = some cal)
    (hcum : cal.is_cumulative = true)
    (hsum : ∀ existing inc : Int, cal.AppendScore existing inc = existing + inc)
    (hdef : cal.CreateScore = 0)
    (h3 : Message.ParseFromString cal.CreateScore b3 = some 3)
    (h4 : Message.ParseFromString cal.CreateScore b4 = some 4)
    (h5 : Message.ParseFromString cal.CreateScore b5 = some 5) :
    RequestScore (appendAll empty schema "perplexity" [b3, b4]) schema "perplexity"
        score_data =
        (Except.ok true,
          { name := some "perplexity", type := some cal.score_type,
            data := some (Message.SerializeAsString (7 : Int)) }) ∧
      RequestScore (appendAll empty schema "perplexity" [b3, b4, b5]) schema "perplexity"
        score_data =
        (Except.ok true,
          { name := some "perplexity", type := some cal.score_type,
            data := some (Message.SerializeAsString (12 : Int)) }) ∧
      RequestScore (Clear (appendAll empty schema "perplexity" [b3, b4, b5])) schema
        "perplexity" score_data =
        (Except.ok true,
          { name := some "perplexity", type := some cal.score_type,
            data := some (Message.SerializeAsString (0 : Int)) }) := by
  have h2 := appendAll_empty_cons schema "perplexity" cal hres b3 [b4] 3 [4] h3
    (by simp [h4])
  have h2b := appendAll_empty_cons schema "perplexity" cal hres b3 [b4, b5] 3 [4, 5] h3
    (by simp [h4, h5])
  simp only [List.foldl_cons, List.foldl_nil, hsum] at h2 h2b
  norm_num at h2 h2b
  refine ⟨?_, ?_, ?_⟩
  · exact RequestScore_cumulative_present _ schema "perplexity" score_data cal 7 hres hcum
      (by rw [h2]; simp [ScoreMap.find])
  · exact RequestScore_cumulative_present _ schema "perplexity" score_data cal 12 hres hcum
      (by rw [h2b]; simp [ScoreMap.find])
  · have h := RequestScore_cumulative_absent
      (Clear (appendAll empty schema "perplexity" [b3, b4, b5])) schema "perplexity"
      score_data cal hres hcum (by simp [Clear, ScoreMap.find])
    rw [hdef] at h
    exact h

theorem perplexity_sum_end_to_end_witness :
    integerSchema.score_calculator "perplexity" = some integerSumCalculator ∧
      RequestScore (appendAll empty integerSchema "perplexity" ["+++", "++++", "+++++"])
        integerSchema "perplexity" ScoreData.default =
        (Except.ok true,
          { name := some "perplexity", type := some 0, data := some "++++++++++++" }) :=
  ⟨rfl, (perplexity_sum_end_to_end integerSchema integerSumCalculator "+++" "++++" "+++++"
    ScoreData.default rfl rfl (fun existing inc => Int.add_comm inc existing) rfl rfl rfl
    rfl).2.1⟩

end ScoreManager

namespace ManagerMembers

variable {Score : Type} [Message Score]

/-- C19: the read methods leave the members of the object as they were.  Started with
`lock_` free, `RequestScore` and `RequestAllScores` end with the same map and with `lock_`
free again, whether they return data, no data or throw, and `RequestScoreArray` ends with
the same records and `lock_` free; their results are those of the bodies read as functions
of the map and of the records, and the same read made again gives the same result. -/
theorem reads_restore_members (self : ManagerMembers Score) (tracker : TrackerMembers)
    (schema : InstanceSchema Score) (score_name : ScoreName) (score_data : ScoreData)
    (all_data : Option (List ScoreData)) (args : GetScoreArrayArgs)
    (score_data_array : ScoreDataArray)
    (hfree : self.lock_ = false) (htfree : tracker.lock_ = false) :
    (RequestScore self schema score_name score_data).1 = self ∧
      (RequestScore self schema score_name score_data).2 =
        ScoreManager.RequestScore { score_map_ := self.score_map_ } schema score_name
          score_data ∧
      (RequestAllScores self schema all_data).1 = self ∧
      (RequestAllScores self schema all_data).2 =
        ScoreManager.RequestAllScores { score_map_ := self.score_map_ } schema all_data ∧
      (TrackerMembers.RequestScoreArray tracker args score_data_array).1 = tracker ∧
      (TrackerMembers.RequestScoreArray tracker args score_data_array).2 =
        (ScoreTracker.RequestScoreArray { array_ := tracker.array_ } args
          score_data_array).2 ∧
      RequestScore (RequestAllScores (RequestScore self schema score_name score_data).1
          schema all_data).1 schema score_name score_data =
        RequestScore self schema score_name score_data ∧
      RequestAllScores (RequestScore (RequestAllScores self schema all_data).1 schema
          score_name score_data).1 schema all_data =
        RequestAllScores self schema all_data ∧
      TrackerMembers.RequestScoreArray
          (TrackerMembers.RequestScoreArray tracker args score_data_array).1 args
          score_data_array =
        TrackerMembers.RequestScoreArray tracker args score_data_array := by
  have h1 := RequestScore_members self schema score_name score_data hfree
  have h2 := RequestAllScores_members self schema all_data hfree
  have h3 := TrackerMembers.RequestScoreArray_members tracker args score_data_array htfree
  have e1 : (RequestScore self schema score_name score_data).1 = self := by rw [h1]
  have e2 : (RequestAllScores self schema all_data).1 = self := by rw [h2]
  have e3 : (TrackerMembers.RequestScoreArray tracker args score_data_array).1 = tracker := by
    rw [h3]
  refine ⟨e1, by rw [h1], e2, by rw [h2], e3, by rw [h3], ?_, ?_, ?_⟩
  · rw [e1, e2]
  · rw [e2, e1]
  · rw [e3]

theorem reads_restore_members_witness :
    (RequestAllScores
        ({ score_map_ := [("perplexity", 3), ("snapshot", 2)], lock_ := false } :
          ManagerMembers Nat) demoSchema (some [])).2 =
        (Except.ok (),
          some [{ name := some "perplexity", type := some 0, data := some "+++" }]) ∧
      (RequestAllScores
        ({ score_map_ := [("perplexity", 3), ("snapshot", 2)], lock_ := false } :
          ManagerMembers Nat) emptySchema (some [])).1.score_map_ =
        [("perplexity", 3), ("snapshot", 2)] :=
  ⟨(reads_restore_members
      { score_map_ := [("perplexity", 3), ("snapshot", 2)], lock_ := false }
      { array_ := [], lock_ := false } demoSchema "perplexity" ScoreData.default (some [])
      { score_name := none } { score := [] } rfl rfl).2.2.2.1,
    congrArg ManagerMembers.score_map_
      (reads_restore_members
        { score_map_ := [("perplexity", 3), ("snapshot", 2)], lock_ := false }
        { array_ := [], lock_ := false } emptySchema "perplexity" ScoreData.default (some [])
        { score_name := none } { score := [] } rfl rfl).2.2.1⟩

end ManagerMembers

end core
end artm
